import Mathlib

/-!
# SUSHI track engine: a shallow embedding of `src/engine/track.cpp`

The development models `sushi::engine::Track` (the ordered processor chain, the
channel negotiation, the audio path and the pan law) and the event handling of
the sample player (`src/plugins/sample_player_plugin.cpp`), and states the
properties of the specification over that model.

Conventions
* A `Processor*` is an address (`Ptr`); the processor objects live in a `Heap`
  that maps addresses to their current state, so that one processor reachable
  through two chain slots is one object, as in the C++.
* C++ `int` values are `Int`. The negotiation, `add` and `remove` apply only
  `std::min` and comparisons to them; the one product, the channel count
  `std::max(input_busses, output_busses) * 2` of the multibus constructor, is
  the mathematical product (signed overflow has no defined result in C++).
* Samples are exact rationals; a `ChunkSampleBuffer` is the list of its
  channels, each channel the list of its samples.
* Compile-time constants whose headers are not part of the sources
  (`TRACK_MAX_PROCESSORS`, `PAN_GAIN_3_DB`, the event queue capacity) are
  parameters of the functions that use them.
-/

namespace sushi

/-- Address of a processor object (`Processor*`). -/
abbrev Ptr := Nat

/-- Process-wide object identifier (`ObjectId`). -/
abbrev ObjectId := Nat

/-- One channel of audio: the samples of one block. -/
abbrev Channel := List ℚ

/-- Modelled from the spec: `library/sample_buffer.h` is not among the sources.
A multichannel audio block, as the list of its channels. A non-owning view of a
channel range is modelled by the channels it covers (`create_non_owning_buffer`)
together with writing them back into the source (`store_view`). -/
abbrev ChunkSampleBuffer := List Channel

/-- Modelled from the spec: `library/rt_event.h` is not among the sources.
The keyboard note event types that carry a note number and a velocity. -/
inductive KeyboardType where
  | NOTE_ON
  | NOTE_OFF
  | NOTE_AFTERTOUCH
  deriving DecidableEq, Repr

/-- Modelled from the spec: `library/rt_event.h` is not among the sources.
The event types that are neither note events nor wrapped MIDI. -/
inductive OtherType where
  | PARAMETER_CHANGE
  | STRING_PROPERTY_CHANGE
  | ASYNC_WORK
  | ASYNC_WORK_COMPLETION_NOTIFICATION
  | TEMPO_CHANGE
  | TIME_SIGNATURE_CHANGE
  | PLAYING_MODE_CHANGE
  | SYNC_MODE_CHANGE
  | STOP_ENGINE
  deriving DecidableEq, Repr

/-- Modelled from the spec: `library/rt_event.h` is not among the sources.
The tag of an `RtEvent`. -/
inductive RtEventType where
  | NOTE_ON
  | NOTE_OFF
  | NOTE_AFTERTOUCH
  | WRAPPED_MIDI_EVENT
  | OTHER (ty : OtherType)
  deriving DecidableEq, Repr

/-- Modelled from the spec: `library/rt_event.h` is not among the sources.
An `RtEvent` is a tagged union; every variant carries the id of the processor
it addresses and a sample offset inside the block. -/
inductive RtEvent where
  | keyboard (ty : KeyboardType) (processor_id : ObjectId) (sample_offset : Int)
      (note : Int) (velocity : ℚ)
  | wrapped_midi (processor_id : ObjectId) (sample_offset : Int) (midi_data : List Nat)
  | other (ty : OtherType) (processor_id : ObjectId) (sample_offset : Int) (payload : Nat)
  deriving DecidableEq

namespace RtEvent

/-- Tag of the event: `RtEvent::type()`. -/
def type : RtEvent → RtEventType
  | keyboard KeyboardType.NOTE_ON _ _ _ _ => RtEventType.NOTE_ON
  | keyboard KeyboardType.NOTE_OFF _ _ _ _ => RtEventType.NOTE_OFF
  | keyboard KeyboardType.NOTE_AFTERTOUCH _ _ _ _ => RtEventType.NOTE_AFTERTOUCH
  | wrapped_midi _ _ _ => RtEventType.WRAPPED_MIDI_EVENT
  | other ty _ _ _ => RtEventType.OTHER ty

/-- Addressed processor: `RtEvent::processor_id()`. -/
def processor_id : RtEvent → ObjectId
  | keyboard _ pid _ _ _ => pid
  | wrapped_midi pid _ _ => pid
  | other _ pid _ _ => pid

/-- Offset in the block: `RtEvent::sample_offset()`. -/
def sample_offset : RtEvent → Int
  | keyboard _ _ off _ _ => off
  | wrapped_midi _ off _ => off
  | other _ _ off _ => off

/-- The note of a keyboard event: `keyboard_event()->note()`. -/
def note : RtEvent → Int
  | keyboard _ _ _ n _ => n
  | _ => 0

/-- The velocity of a keyboard event: `keyboard_event()->velocity()`. -/
def velocity : RtEvent → ℚ
  | keyboard _ _ _ _ v => v
  | _ => 0

/-- The bytes of a wrapped MIDI event: `wrapped_midi_event()->midi_data()`. -/
def midi_data : RtEvent → List Nat
  | wrapped_midi _ _ d => d
  | _ => []

/-- Factory `RtEvent::make_note_on_event`. -/
def make_note_on_event (pid : ObjectId) (off : Int) (note : Int) (velocity : ℚ) : RtEvent :=
  keyboard KeyboardType.NOTE_ON pid off note velocity

/-- Factory `RtEvent::make_note_off_event`. -/
def make_note_off_event (pid : ObjectId) (off : Int) (note : Int) (velocity : ℚ) : RtEvent :=
  keyboard KeyboardType.NOTE_OFF pid off note velocity

/-- Factory `RtEvent::make_note_aftertouch_event`. -/
def make_note_aftertouch_event (pid : ObjectId) (off : Int) (note : Int) (velocity : ℚ) :
    RtEvent :=
  keyboard KeyboardType.NOTE_AFTERTOUCH pid off note velocity

/-- Factory `RtEvent::make_wrapped_midi_event`. -/
def make_wrapped_midi_event (pid : ObjectId) (off : Int) (midi_data : List Nat) : RtEvent :=
  wrapped_midi pid off midi_data

end RtEvent

/-- Modelled from the spec: `library/processor.h` is not among the sources.
The state of a processor as the track sees it: its id, its declared channel
maxima, the negotiated channel counts, and its event output (the address of the
sink, `none` for `nullptr`). The virtual methods are the fields
`process_audio_fn` (the contents `process_audio` leaves in its output view, from
the input view and the previous contents of the output view) and
`audio_events` (the events it publishes through `output_event` while processing
a block). `received_events` records the events passed to `process_event`, oldest
first; a processor publishes no event from inside `process_event`, so the
queue of the track is finite whenever it is drained. `audio_calls` records the
`process_audio` calls made on the processor, oldest first: each entry is the
list of events the processor had received when that call was made, so that
the order of event delivery and audio processing can be read off the object. -/
structure Processor where
  id : ObjectId
  max_input_channels : Int
  max_output_channels : Int
  input_channels : Int
  output_channels : Int
  event_output : Option Ptr
  received_events : List RtEvent
  process_audio_fn : ChunkSampleBuffer → ChunkSampleBuffer → ChunkSampleBuffer
  audio_events : ChunkSampleBuffer → List RtEvent
  audio_calls : List (List RtEvent)

namespace Processor

/-- Default `Processor::set_input_channels`: stores the value. -/
def set_input_channels (p : Processor) (n : Int) : Processor :=
  { p with input_channels := n }

/-- Default `Processor::set_output_channels`: stores the value. -/
def set_output_channels (p : Processor) (n : Int) : Processor :=
  { p with output_channels := n }

/-- The setter `Processor::set_event_output`. -/
def set_event_output (p : Processor) (sink : Option Ptr) : Processor :=
  { p with event_output := sink }

/-- The call `Processor::process_event`: the processor observes the event. -/
def process_event (p : Processor) (e : RtEvent) : Processor :=
  { p with received_events := p.received_events ++ [e] }

/-- The object after a `Processor::process_audio` call: the call is recorded with
the events the processor has received so far. -/
def record_audio_call (p : Processor) : Processor :=
  { p with audio_calls := p.audio_calls ++ [p.received_events] }

end Processor

/-- The processor objects, by address. -/
abbrev Heap := Ptr → Processor

/-- Replace the object at address `a`. -/
def Heap.set (h : Heap) (a : Ptr) (p : Processor) : Heap :=
  fun b => if b = a then p else h b

/-- The fields of `sushi::engine::Track` (`this` is the address `self`).
`gain_parameters` and `pan_parameters` hold the current value of each bus
parameter; `output_events` records what the track passed to `output_event`,
oldest first. -/
structure Track where
  self : Ptr
  id : ObjectId
  max_input_channels : Int
  max_output_channels : Int
  current_input_channels : Int
  current_output_channels : Int
  input_busses : Int
  output_busses : Int
  multibus : Bool
  processors : List Ptr
  event_buffer : List RtEvent
  gain_parameters : List ℚ
  pan_parameters : List ℚ
  input_buffer : ChunkSampleBuffer
  output_buffer : ChunkSampleBuffer
  output_events : List RtEvent

/-- One iteration of the `for` loop of `Track::update_channel_config`, at index
`i`, on the loop state (heap, `input_channels`). -/
def update_channel_config_body (t : Track) (st : Heap × Int) (i : Nat) : Heap × Int :=
  let h := st.1
  let p := t.processors.getD i 0
  let input_channels := min st.2 (h p).max_input_channels
  let h1 := if input_channels ≠ (h p).input_channels
    then h.set p ((h p).set_input_channels input_channels) else h
  let output_channels :=
    if i < t.processors.length - 1 then
      min t.max_output_channels
        (min (h1 p).max_output_channels (h1 (t.processors.getD (i + 1) 0)).max_input_channels)
    else
      min t.max_output_channels (min (h1 p).max_output_channels t.current_output_channels)
  let h2 := if output_channels ≠ (h1 p).output_channels
    then h1.set p ((h1 p).set_output_channels output_channels) else h1
  (h2, output_channels)

/-- The method `Track::update_channel_config`: the loop over the chain, then the
clamp of the last processor to the track outputs. -/
def update_channel_config (t : Track) (h : Heap) : Heap :=
  let h1 := ((List.range t.processors.length).foldl (update_channel_config_body t)
    (h, t.current_input_channels)).1
  match t.processors.getLast? with
  | none => h1
  | some last =>
    let track_outputs := min t.current_output_channels (h1 last).output_channels
    if track_outputs ≠ (h1 last).output_channels
    then h1.set last ((h1 last).set_output_channels track_outputs) else h1

/-- The method `Track::add`: the result flag, the track and the heap. -/
def add (TRACK_MAX_PROCESSORS : Nat) (t : Track) (h : Heap) (processor : Ptr) :
    Bool × Track × Heap :=
  if t.processors.length ≥ TRACK_MAX_PROCESSORS ∨ processor = t.self then
    (false, t, h)
  else
    let t1 := { t with processors := t.processors ++ [processor] }
    let h1 := h.set processor ((h processor).set_event_output (some t.self))
    (true, t1, update_channel_config t1 h1)

/-- The search loop of `Track::remove` over the chain positions from `i`:
the position of the first processor whose id is `processor`. -/
def remove_find (h : Heap) (processor : ObjectId) : List Ptr → Nat → Option Nat
  | [], _ => none
  | plugin :: rest, i =>
    if (h plugin).id = processor then some i else remove_find h processor rest (i + 1)

/-- The method `Track::remove`: the result flag, the track and the heap. -/
def remove (t : Track) (h : Heap) (processor : ObjectId) : Bool × Track × Heap :=
  match remove_find h processor t.processors 0 with
  | some i =>
    let plugin := t.processors.getD i 0
    let h1 := h.set plugin ((h plugin).set_event_output none)
    let t1 := { t with processors := t.processors.eraseIdx i }
    (true, t1, update_channel_config t1 h1)
  | none => (false, t, h)

/-! ## The recurrence of the specification -/

/-- The recurrence of the specification over the declared maxima
`(max_input_channels, max_output_channels)` of the chain, starting from `inp`
input channels: the pairs `(input_channels, output_channels)` it gives the
processors, in chain order. -/
def spec_channels (track_max_out cur_out : Int) : Int → List (Int × Int) → List (Int × Int)
  | _, [] => []
  | inp, [m] => [(min inp m.1, min track_max_out (min m.2 cur_out))]
  | inp, m :: m2 :: rest =>
    (min inp m.1, min track_max_out (min m.2 m2.1)) ::
      spec_channels track_max_out cur_out (min track_max_out (min m.2 m2.1)) (m2 :: rest)

/-- The declared maxima of the processors of a chain. -/
def chain_maxima (h : Heap) (procs : List Ptr) : List (Int × Int) :=
  procs.map fun p => ((h p).max_input_channels, (h p).max_output_channels)

/-- The channel counts the recurrence of the specification gives the chain of a track. -/
def negotiated (t : Track) (h : Heap) : List (Int × Int) :=
  spec_channels t.max_output_channels t.current_output_channels t.current_input_channels
    (chain_maxima h t.processors)

/-- Store a pair of channel counts in the processor at `p`. -/
def assign (h : Heap) (p : Ptr) (v : Int × Int) : Heap :=
  h.set p (((h p).set_input_channels v.1).set_output_channels v.2)

/-- Store the pairs of channel counts in the processors of the chain, one after
the other in chain order. -/
def assign_all : Heap → List Ptr → List (Int × Int) → Heap
  | h, p :: ps, v :: vs => assign_all (assign h p v) ps vs
  | h, _, _ => h

/-- Every processor of the chain has its channel counts within its declared maxima. -/
def channels_within_maxima (h : Heap) (procs : List Ptr) : Prop :=
  ∀ p ∈ procs, (h p).input_channels ≤ (h p).max_input_channels ∧
    (h p).output_channels ≤ (h p).max_output_channels

/-- Every processor of the chain reads as many channels as its predecessor writes. -/
def chain_linked (h : Heap) (procs : List Ptr) : Prop :=
  ∀ i, i + 1 < procs.length →
    (h (procs.getD (i + 1) 0)).input_channels = (h (procs.getD i 0)).output_channels

/-! ## Sample buffers -/

/-- Modelled from the spec: `library/sample_buffer.h` is not among the sources.
The channels a non-owning view of `count` channels from `first_channel` covers.
A range that reaches past the source is outside what the spec says of a view
(see `view_in_range`); here it covers the channels that exist, fewer than
`count`. -/
def create_non_owning_buffer (src : ChunkSampleBuffer) (first_channel count : Nat) :
    ChunkSampleBuffer :=
  (src.drop first_channel).take count

/-- Modelled from the spec: `library/sample_buffer.h` is not among the sources.
A view borrows the storage of its source: what is written through the view is
written into the channels of the source it covers. -/
def store_view (src : ChunkSampleBuffer) (first_channel : Nat) (view : ChunkSampleBuffer) :
    ChunkSampleBuffer :=
  src.take first_channel ++ view ++ src.drop (first_channel + view.length)

/-- Modelled from the spec: `library/sample_buffer.h` is not among the sources.
The call `apply_gain(g)` multiplies every sample in place. -/
def apply_gain (b : ChunkSampleBuffer) (g : ℚ) : ChunkSampleBuffer :=
  b.map fun ch => ch.map fun x => x * g

/-- What a processor leaves in a view it was handed: the channels it wrote, as
many as the view has; a view does not change its channel count. -/
def fit (view written : ChunkSampleBuffer) : ChunkSampleBuffer :=
  written.take view.length ++ view.drop written.length

/-- Modelled from the spec: the header with the channel indices is not among the
sources. Index of the left channel of a bus. -/
def LEFT_CHANNEL_INDEX : Nat := 0

/-- Modelled from the spec: the header with the channel indices is not among the
sources. Index of the right channel of a bus. -/
def RIGHT_CHANNEL_INDEX : Nat := 1

/-- The function `apply_pan_and_gain` of `track.cpp`. -/
def apply_pan_and_gain (PAN_GAIN_3_DB : ℚ) (buffer : ChunkSampleBuffer) (gain pan : ℚ) :
    ChunkSampleBuffer :=
  let gains : ℚ × ℚ :=
    if pan < 0 then
      (gain * (1 + pan - PAN_GAIN_3_DB * pan), gain * (1 + pan))
    else
      (gain * (1 - pan), gain * (1 - pan + PAN_GAIN_3_DB * pan))
  let buffer1 := store_view buffer LEFT_CHANNEL_INDEX
    (apply_gain (create_non_owning_buffer buffer LEFT_CHANNEL_INDEX 1) gains.1)
  store_view buffer1 RIGHT_CHANNEL_INDEX
    (apply_gain (create_non_owning_buffer buffer1 RIGHT_CHANNEL_INDEX 1) gains.2)

/-! ## Events -/

/-- Modelled from the spec: `library/rt_event_fifo.h` is not among the sources.
Push on the bounded queue: the event is appended unless the queue is full. -/
def rt_fifo_push (capacity : Nat) (q : List RtEvent) (e : RtEvent) : List RtEvent :=
  if q.length < capacity then q ++ [e] else q

/-- The call `output_event` on the track: the event is handed to the event
output of the track. -/
def Track.output_event (t : Track) (event : RtEvent) : Track :=
  { t with output_events := t.output_events ++ [event] }

/-- The method `Track::process_event`. -/
def Track.process_event (capacity : Nat) (t : Track) (event : RtEvent) : Track :=
  match event.type with
  | RtEventType.NOTE_ON => { t with event_buffer := rt_fifo_push capacity t.event_buffer event }
  | RtEventType.NOTE_OFF => { t with event_buffer := rt_fifo_push capacity t.event_buffer event }
  | RtEventType.NOTE_AFTERTOUCH =>
    { t with event_buffer := rt_fifo_push capacity t.event_buffer event }
  | RtEventType.WRAPPED_MIDI_EVENT =>
    { t with event_buffer := rt_fifo_push capacity t.event_buffer event }
  | _ => t

/-- The method `Track::send_event`. -/
def Track.send_event (capacity : Nat) (t : Track) (event : RtEvent) : Track :=
  match event.type with
  | RtEventType.NOTE_ON => { t with event_buffer := rt_fifo_push capacity t.event_buffer event }
  | RtEventType.NOTE_OFF => { t with event_buffer := rt_fifo_push capacity t.event_buffer event }
  | RtEventType.NOTE_AFTERTOUCH =>
    { t with event_buffer := rt_fifo_push capacity t.event_buffer event }
  | RtEventType.WRAPPED_MIDI_EVENT =>
    { t with event_buffer := rt_fifo_push capacity t.event_buffer event }
  | _ => t.output_event event

/-- Modelled from the spec: `library/processor.h` is not among the sources.
A processor of the chain publishes an event: it reaches `send_event` of the
track when the event output of the processor is the track. -/
def publish (capacity : Nat) (p : Processor) (t : Track) (event : RtEvent) : Track :=
  if p.event_output = some t.self then t.send_event capacity event else t

/-- The first `while` loop of `Track::process_audio`: every queued event is
popped and passed to the processor, oldest first. -/
def deliver_events : List RtEvent → Processor → Processor
  | [], p => p
  | event :: rest, p => deliver_events rest (p.process_event event)

/-- The processor object after it was passed the events of `queue`, oldest first,
and `process_audio` was then called on it `calls` times. -/
def after_block (p : Processor) (queue : List RtEvent) (calls : Nat) : Processor :=
  { p with
    received_events := p.received_events ++ queue
    audio_calls := p.audio_calls ++ List.replicate calls (p.received_events ++ queue) }

/-- The `switch` of the second `while` loop of `Track::process_audio`: the event
the track passes upstream for an event left in the queue. -/
def forwarded_event (t : Track) (event : RtEvent) : RtEvent :=
  match event.type with
  | RtEventType.NOTE_ON =>
    RtEvent.make_note_on_event t.id event.sample_offset event.note event.velocity
  | RtEventType.NOTE_OFF =>
    RtEvent.make_note_off_event t.id event.sample_offset event.note event.velocity
  | RtEventType.NOTE_AFTERTOUCH =>
    RtEvent.make_note_aftertouch_event t.id event.sample_offset event.note event.velocity
  | RtEventType.WRAPPED_MIDI_EVENT =>
    RtEvent.make_wrapped_midi_event t.id event.sample_offset event.midi_data
  | _ => event

/-! ## The audio path -/

/-- One iteration of the `for` loop of `Track::process_audio` for the processor
at address `processor`, on the state (track, heap, `out`). The views `in_bfr`
and `out_bfr` are created from `inp` and `out` in every iteration; the
`std::swap` of the two locals at the end of the body changes neither `inp` nor
`out`. The `process_audio` call on the processor is recorded in its
`audio_calls`. -/
def process_audio_step (capacity : Nat) (inp : ChunkSampleBuffer)
    (st : Track × Heap × ChunkSampleBuffer) (processor : Ptr) :
    Track × Heap × ChunkSampleBuffer :=
  let t := st.1
  let h := st.2.1
  let out := st.2.2
  let h1 := h.set processor (deliver_events t.event_buffer (h processor))
  let t1 := { t with event_buffer := [] }
  let in_bfr := create_non_owning_buffer inp 0 (h1 processor).input_channels.toNat
  let out_bfr := create_non_owning_buffer out 0 (h1 processor).output_channels.toNat
  let out1 := store_view out 0 (fit out_bfr ((h1 processor).process_audio_fn in_bfr out_bfr))
  let t2 := ((h1 processor).audio_events in_bfr).foldl (publish capacity (h1 processor)) t1
  let h2 := h1.set processor (h1 processor).record_audio_call
  (t2, h2, out1)

/-- The method `Track::process_audio`: the track, the heap and the contents of
`out` when it returns. The closing assignment `out = output` gives `out` the
channels of the view `output`, which is created from `inp`. -/
def process_audio (capacity : Nat) (t : Track) (h : Heap) (inp out : ChunkSampleBuffer) :
    Track × Heap × ChunkSampleBuffer :=
  let st := t.processors.foldl (process_audio_step capacity inp) (t, h, out)
  let t1 := st.1
  let h1 := st.2.1
  let output_channels : Int :=
    match t1.processors.getLast? with
    | none => t1.current_output_channels
    | some last => (h1 last).output_channels
  let output := create_non_owning_buffer inp 0 output_channels.toNat
  let t2 := t1.event_buffer.foldl (fun tr event => tr.output_event (forwarded_event tr event))
    { t1 with event_buffer := [] }
  (t2, h1, output)

/-- The method `Track::render`. -/
def render (capacity : Nat) (PAN_GAIN_3_DB : ℚ) (t : Track) (h : Heap) : Track × Heap :=
  let r := process_audio capacity t h t.input_buffer t.output_buffer
  let out := (List.range r.1.output_busses.toNat).foldl
    (fun buffer bus => apply_pan_and_gain PAN_GAIN_3_DB buffer
      (r.1.gain_parameters.getD bus 0) (r.1.pan_parameters.getD bus 0))
    r.2.2
  ({ r.1 with output_buffer := out }, r.2.1)

/-! ## Construction -/

/-- A buffer of `channels` channels of `frames` zero samples. -/
def silent_buffer (frames channels : Nat) : ChunkSampleBuffer :=
  List.replicate channels (List.replicate frames 0)

/-- The parameters `_common_init` registers: one gain and one pan for the main
bus and one pair for every further output bus. A gain of 0 dB is the linear
gain 1, the default pan is 0. -/
def common_init (t : Track) : Track :=
  { t with
    gain_parameters := 1 :: List.replicate (t.output_busses.toNat - 1) 1
    pan_parameters := 0 :: List.replicate (t.output_busses.toNat - 1) 0 }

/-- The constructor `Track::Track(int channels)`, for the object at address `self`
with id `id`; `frames` is the number of samples of a block. -/
def Track.simple (self : Ptr) (id : ObjectId) (frames : Nat) (channels : Int) : Track :=
  common_init
    { self := self, id := id
      max_input_channels := channels, max_output_channels := channels
      current_input_channels := channels, current_output_channels := channels
      input_busses := 1, output_busses := 1, multibus := false
      processors := [], event_buffer := []
      gain_parameters := [], pan_parameters := []
      input_buffer := silent_buffer frames (max channels 2).toNat
      output_buffer := silent_buffer frames (max channels 2).toNat
      output_events := [] }

/-- The constructor `Track::Track(int input_busses, int output_busses)`. -/
def Track.multibus_track (self : Ptr) (id : ObjectId) (frames : Nat)
    (input_busses output_busses : Int) : Track :=
  common_init
    { self := self, id := id
      max_input_channels := max input_busses output_busses * 2
      max_output_channels := max input_busses output_busses * 2
      current_input_channels := max input_busses output_busses * 2
      current_output_channels := max input_busses output_busses * 2
      input_busses := input_busses, output_busses := output_busses
      multibus := decide (input_busses > 1 ∨ output_busses > 1)
      processors := [], event_buffer := []
      gain_parameters := [], pan_parameters := []
      input_buffer := silent_buffer frames (max input_busses output_busses * 2).toNat
      output_buffer := silent_buffer frames (max input_busses output_busses * 2).toNat
      output_events := [] }

/-- A call of `add` or `remove` on a track. -/
inductive TrackOp where
  | add (processor : Ptr)
  | remove (processor : ObjectId)

/-- The state after one call. -/
def apply_op (TRACK_MAX_PROCESSORS : Nat) (s : Track × Heap) : TrackOp → Track × Heap
  | TrackOp.add p => (add TRACK_MAX_PROCESSORS s.1 s.2 p).2
  | TrackOp.remove x => (remove s.1 s.2 x).2

/-- The state after a sequence of calls, first call first. -/
def run_ops (TRACK_MAX_PROCESSORS : Nat) (s : Track × Heap) (ops : List TrackOp) :
    Track × Heap :=
  ops.foldl (apply_op TRACK_MAX_PROCESSORS) s

/-! ## The pan law, event families and non-real-time events -/

/-- The left and the right gain `apply_pan_and_gain` computes from `gain` and
`pan`: the two branches of its `if (pan < 0.0f)`. -/
def pan_gains (PAN_GAIN_3_DB gain pan : ℚ) : ℚ × ℚ :=
  if pan < 0 then
    (gain * (1 + pan - PAN_GAIN_3_DB * pan), gain * (1 + pan))
  else
    (gain * (1 - pan), gain * (1 - pan + PAN_GAIN_3_DB * pan))

/-- The event is of the keyboard family, the four `case` labels of
`Track::process_event`: a note event or wrapped MIDI. -/
def keyboard_family (e : RtEvent) : Prop :=
  e.type = RtEventType.NOTE_ON ∨ e.type = RtEventType.NOTE_OFF ∨
    e.type = RtEventType.NOTE_AFTERTOUCH ∨ e.type = RtEventType.WRAPPED_MIDI_EVENT

instance keyboard_family_decidable (e : RtEvent) : Decidable (keyboard_family e) := by
  unfold keyboard_family; infer_instance

/-- The pair of channel counts that `assign_all` stores last in the processor at
`q`, if it stores any. -/
def last_write : List Ptr → List (Int × Int) → Ptr → Option (Int × Int)
  | p :: ps, v :: vs, q =>
    match last_write ps vs q with
    | some w => some w
    | none => if q = p then some v else none
  | _, _, _ => none

/-- Modelled from the spec: `library/plugin_events.h` is not among the sources.
The type tag of a non-real-time plugin event; the variants are those the
specification lists for events. -/
abbrev EventType := RtEventType

/-- Modelled from the spec: `library/plugin_events.h` is not among the sources.
The part common to all plugin events: the type, the name of the processor the
event addresses and the sample offset inside the block. -/
structure BaseEvent where
  type : EventType
  processor_id : String
  sample_offset : Int
  deriving DecidableEq

/-- Modelled from the spec: `library/plugin_events.h` is not among the sources.
A keyboard event: a plugin event with a note number and a velocity. -/
structure KeyboardEvent extends BaseEvent where
  note : Int
  velocity : ℚ
  deriving DecidableEq

/-- Modelled from the spec: `library/plugin_events.h` is not among the sources.
The constructor `KeyboardEvent(type, processor_id, sample_offset, note, velocity)`
as the unit test calls it. -/
def KeyboardEvent.create (type : EventType) (processor_id : String) (sample_offset : Int)
    (note : Int) (velocity : ℚ) : KeyboardEvent :=
  { type := type, processor_id := processor_id, sample_offset := sample_offset
    note := note, velocity := velocity }

/-! ## The sample player -/

/-- The methods of a sample player voice that `SamplePlayerPlugin::process_event`
calls. The voice header is not among the sources and the specification does
not describe it, so the voice type `V` and these methods are parameters:
`active()`, `stopping()`, `current_note()`, and the state of the voice after
`note_on(note, velocity, offset)` and after `note_off(velocity, offset)`. -/
structure VoiceOps (V : Type) where
  active : V → Bool
  stopping : V → Bool
  current_note : V → Int
  note_on : V → Int → ℚ → Int → V
  note_off : V → ℚ → Int → V

/-- A loop of the form `for (auto& voice : _voices) { if (p(voice)) { f(voice);
break; } }`: the voices after the loop, and whether the body ran. -/
def for_first {V : Type} (p : V → Bool) (f : V → V) : List V → List V × Bool
  | [] => ([], false)
  | voice :: rest =>
    if p voice then (f voice :: rest, true)
    else ((for_first p f rest).1.cons voice, (for_first p f rest).2)

/-- The method `SamplePlayerPlugin::process_event` on the voices of the plugin.
The event is handed as a `KeyboardEvent`, as the `static_cast` of the code reads
it; for types other than `NOTE_ON` and `NOTE_OFF` the note and the velocity are
not read. -/
def sample_player_process_event {V : Type} (ops : VoiceOps V) (voices : List V)
    (event : KeyboardEvent) : List V :=
  match event.type with
  | RtEventType.NOTE_ON =>
    let allocated := for_first (fun voice => !ops.active voice)
      (fun voice => ops.note_on voice event.note event.velocity event.sample_offset) voices
    if !allocated.2 then
      (for_first (fun voice => ops.stopping voice)
        (fun voice => ops.note_on voice event.note event.velocity event.sample_offset)
        allocated.1).1
    else allocated.1
  | RtEventType.NOTE_OFF =>
    (for_first (fun voice => ops.active voice && decide (ops.current_note voice = event.note))
      (fun voice => ops.note_off voice event.velocity event.sample_offset) voices).1
  | _ => voices

/-! ## Concrete tracks and processors used at explicit inputs -/

/-- A processor with the given id and channel maxima that copies its input view
to its output view and publishes no events. -/
def example_processor (id : ObjectId) (max_in max_out : Int) : Processor :=
  { id := id, max_input_channels := max_in, max_output_channels := max_out
    input_channels := 0, output_channels := 0, event_output := none
    received_events := [], process_audio_fn := fun i _ => i, audio_events := fun _ => []
    audio_calls := [] }

/-- A heap whose processor at address 1 accepts 2 input channels and every other
processor 8 input channels, each with up to 8 output channels. -/
def narrow_heap : Heap :=
  fun a => if a = 1 then example_processor a 2 8 else example_processor a 8 8

/-- The heap of scenario S3: the processor at address 1 is `B(2,2)`, the others
are `(8,8)`. -/
def s3_heap : Heap :=
  fun a => if a = 1 then example_processor a 2 2 else example_processor a 8 8

/-- The stereo track of scenario S3 with the chain `A, B, C` at addresses 0, 1, 2. -/
def s3_track : Track :=
  { Track.simple 100 100 64 2 with processors := [0, 1, 2] }

/-- The state after adding the processors at addresses 0, 1 and again 0 to a
fresh track of four stereo busses. -/
def aliased_state : Track × Heap :=
  run_ops 16 (Track.multibus_track 100 100 64 4 4, narrow_heap)
    [TrackOp.add 0, TrackOp.add 1, TrackOp.add 0]

/-- A fresh stereo track after `add` of the processor at address 1. -/
def one_processor : Track × Heap :=
  (add 16 (Track.simple 100 100 64 2) narrow_heap 1).2

/-- A stereo processor that writes its input, doubled, to its output. -/
def doubling_processor (id : ObjectId) : Processor :=
  { id := id, max_input_channels := 2, max_output_channels := 2
    input_channels := 0, output_channels := 0, event_output := none
    received_events := [], process_audio_fn := fun i _ => apply_gain i 2
    audio_events := fun _ => [], audio_calls := [] }

/-- A heap of doubling processors. -/
def doubling_heap : Heap := fun a => doubling_processor a

/-- A fresh stereo track after `add` of the doubling processor at address 1. -/
def one_doubler : Track × Heap :=
  run_ops 16 (Track.simple 100 100 2 2, doubling_heap) [TrackOp.add 1]

/-- A fresh stereo track after `add` of the doubling processors at addresses 1 and 2. -/
def two_doublers : Track × Heap :=
  run_ops 16 (Track.simple 100 100 2 2, doubling_heap) [TrackOp.add 1, TrackOp.add 2]

/-- A track of two stereo output busses, no processors, bus gains 2 and 3,
both pans 0, fed samples 1 on its four input channels. -/
def two_bus_track : Track :=
  { Track.multibus_track 100 100 1 2 2 with
    gain_parameters := [2, 3], input_buffer := [[1], [1], [1], [1]] }

/-- A note-on for note 60 at sample offset 5. -/
def note_late : RtEvent := RtEvent.make_note_on_event 1 5 60 1

/-- A note-on for note 62 at sample offset 3. -/
def note_early : RtEvent := RtEvent.make_note_on_event 1 3 62 1

/-- A parameter change addressed to processor 100. -/
def parameter_change : RtEvent := RtEvent.other OtherType.PARAMETER_CHANGE 100 0 7

/-- A fresh stereo track with id 100 and no processors. -/
def empty_track : Track := Track.simple 100 100 2 2

/-- The stereo track that holds the processor at address 1, after the two note
events were passed to `process_event`, the later offset first. -/
def queued_track : Track :=
  [note_late, note_early].foldl (Track.process_event 8) one_processor.1

/-- A voice for explicit inputs: whether it is active, whether it is stopping, and
its current note. -/
structure ExampleVoice where
  active : Bool
  stopping : Bool
  note : Int
  deriving DecidableEq

/-- Methods for `ExampleVoice`: `note_on` starts the note, `note_off` puts the
voice in its stopping phase. -/
def example_voice_ops : VoiceOps ExampleVoice :=
  { active := fun v => v.active
    stopping := fun v => v.stopping
    current_note := fun v => v.note
    note_on := fun _ note _ _ => { active := true, stopping := false, note := note }
    note_off := fun v _ _ => { v with stopping := true } }

/-- A voice that plays the note. -/
def playing (note : Int) : ExampleVoice := { active := true, stopping := false, note := note }

/-- A voice in its stopping phase after the note. -/
def releasing (note : Int) : ExampleVoice := { active := true, stopping := true, note := note }

/-- A voice that is not active; its last note was the given one. -/
def idle (note : Int) : ExampleVoice := { active := false, stopping := false, note := note }

/-- A note-on for note 64 with velocity 1 at sample offset 0. -/
def note_on_64 : KeyboardEvent := KeyboardEvent.create RtEventType.NOTE_ON "sampler" 0 64 1

/-- A note-off for note 62 at sample offset 0. -/
def note_off_62 : KeyboardEvent := KeyboardEvent.create RtEventType.NOTE_OFF "sampler" 0 62 0

/-- An event of another type. -/
def other_event : KeyboardEvent :=
  KeyboardEvent.create (RtEventType.OTHER OtherType.PARAMETER_CHANGE) "sampler" 0 0 0

/-- A track of four stereo busses, 8 channels, with the chain `A(8,8)`, `B(2,2)`,
`C(8,8)` at the addresses 0, 1, 2. -/
def wide_track : Track :=
  { Track.multibus_track 100 100 64 4 4 with processors := [0, 1, 2] }

/-- The processors of `wide_track` after the negotiation: `A` writes 2 channels and
`C` reads 2 channels, because `B` between them takes no more. -/
def wide_heap : Heap := update_channel_config wide_track s3_heap

/-! ## Channel negotiation: the loop and the recurrence -/

theorem Heap.set_same (h : Heap) (a : Ptr) (p : Processor) : h.set a p a = p := by
  simp [Heap.set]

theorem Heap.set_other (h : Heap) (a b : Ptr) (p : Processor) (hne : b ≠ a) :
    h.set a p b = h b := by
  simp [Heap.set, hne]

theorem spec_channels_length (tmo co : Int) (ms : List (Int × Int)) :
    ∀ inp, (spec_channels tmo co inp ms).length = ms.length := by
  induction ms with
  | nil => intro inp; rfl
  | cons m rest ih =>
    intro inp
    cases rest with
    | nil => rfl
    | cons m2 rest2 => simp [spec_channels, ih]

theorem body_eq_assign (t : Track) (h : Heap) (inp : Int) (i : Nat) :
    update_channel_config_body t (h, inp) i =
      let p := t.processors.getD i 0
      let o := if i < t.processors.length - 1 then
          min t.max_output_channels
            (min (h p).max_output_channels (h (t.processors.getD (i + 1) 0)).max_input_channels)
        else min t.max_output_channels (min (h p).max_output_channels t.current_output_channels)
      (assign h p (min inp (h p).max_input_channels, o), o) := by
  simp only [update_channel_config_body]
  generalize t.processors.getD i 0 = p
  generalize t.processors.getD (i + 1) 0 = q
  have hmax : ∀ (n : Int) (b : Ptr),
      (h.set p ((h p).set_input_channels n) b).max_input_channels = (h b).max_input_channels ∧
      (h.set p ((h p).set_input_channels n) b).max_output_channels =
        (h b).max_output_channels := by
    intro n b
    by_cases hb : b = p
    · subst hb; simp [Heap.set, Processor.set_input_channels]
    · simp [Heap.set, hb]
  refine Prod.ext ?_ ?_
  · funext b
    by_cases hb : b = p
    · subst hb
      split_ifs <;>
        simp_all [Heap.set, assign, Processor.set_input_channels, Processor.set_output_channels]
    · split_ifs <;> simp [Heap.set, assign, hb]
  · split_ifs <;> simp_all [Heap.set, Processor.set_input_channels]

theorem assign_max (h : Heap) (p : Ptr) (v : Int × Int) (b : Ptr) :
    (assign h p v b).max_input_channels = (h b).max_input_channels ∧
    (assign h p v b).max_output_channels = (h b).max_output_channels := by
  by_cases hb : b = p
  · subst hb
    simp [assign, Heap.set, Processor.set_input_channels, Processor.set_output_channels]
  · simp [assign, Heap.set, hb]

theorem chain_maxima_assign (h : Heap) (p : Ptr) (v : Int × Int) (ps : List Ptr) :
    chain_maxima (assign h p v) ps = chain_maxima h ps := by
  simp [chain_maxima, assign_max]

theorem getD_append_length (pre : List Ptr) (p : Ptr) (rest : List Ptr) :
    (pre ++ p :: rest).getD pre.length 0 = p := by
  induction pre with
  | nil => rfl
  | cons a pre ih => simpa using ih

/-- The iterations of the loop from index `pre.length` on, over the rest `suf` of
the chain, store the pairs the recurrence gives `suf`. -/
theorem loop_eq (t : Track) : ∀ (suf pre : List Ptr) (h : Heap) (inp : Int),
    t.processors = pre ++ suf →
    (List.foldl (update_channel_config_body t) (h, inp)
      ((List.range suf.length).map (· + pre.length))).1 =
    assign_all h suf
      (spec_channels t.max_output_channels t.current_output_channels inp (chain_maxima h suf)) := by
  intro suf
  induction suf with
  | nil => intro pre h inp _; rfl
  | cons p rest ih =>
    intro pre h inp hp
    have hlen : t.processors.length = pre.length + (rest.length + 1) := by simp [hp]
    have hget : t.processors.getD pre.length 0 = p := by
      rw [hp]; exact getD_append_length pre p rest
    have hstep : List.foldl (update_channel_config_body t) (h, inp)
        ((List.range (p :: rest).length).map (· + pre.length)) =
        List.foldl (update_channel_config_body t)
          (update_channel_config_body t (h, inp) pre.length)
          ((List.range rest.length).map (· + (pre ++ [p]).length)) := by
      simp only [List.length_cons, List.range_succ_eq_map, List.map_cons, List.map_map,
        List.foldl_cons, Nat.zero_add, List.length_append, List.length_nil]
      congr 2
      funext i
      simp only [Function.comp, List.length_singleton]
      omega
    rw [hstep, body_eq_assign]
    cases rest with
    | nil =>
      have hlt : ¬ pre.length < t.processors.length - 1 := by
        simp only [List.length_nil] at hlen; omega
      simp only [hget, hlt, if_false]
      simp [spec_channels, chain_maxima, assign_all]
    | cons q rest2 =>
      have hlt : pre.length < t.processors.length - 1 := by
        simp only [List.length_cons] at hlen; omega
      have hget2 : t.processors.getD (pre.length + 1) 0 = q := by
        have h2 := getD_append_length (pre ++ [p]) q rest2
        simpa [hp] using h2
      have hp2 : t.processors = (pre ++ [p]) ++ (q :: rest2) := by simp [hp]
      simp only [hget, hget2, hlt, if_true]
      rw [ih (pre ++ [p]) _ _ hp2, chain_maxima_assign]
      simp [spec_channels, chain_maxima, assign_all]

theorem assign_all_not_mem : ∀ (ps : List Ptr) (vs : List (Int × Int)) (h : Heap) (q : Ptr),
    q ∉ ps → assign_all h ps vs q = h q := by
  intro ps
  induction ps with
  | nil => intro vs h q _; cases vs <;> rfl
  | cons p ps ih =>
    intro vs h q hq
    cases vs with
    | nil => rfl
    | cons v vs =>
      have hne : q ≠ p := fun e => hq (by simp [e])
      have hnot : q ∉ ps := fun e => hq (by simp [e])
      simp only [assign_all]
      rw [ih vs _ q hnot]
      simp [assign, Heap.set, hne]

theorem assign_all_max : ∀ (ps : List Ptr) (vs : List (Int × Int)) (h : Heap) (q : Ptr),
    (assign_all h ps vs q).max_input_channels = (h q).max_input_channels ∧
    (assign_all h ps vs q).max_output_channels = (h q).max_output_channels := by
  intro ps
  induction ps with
  | nil => intro vs h q; cases vs <;> exact ⟨rfl, rfl⟩
  | cons p ps ih =>
    intro vs h q
    cases vs with
    | nil => exact ⟨rfl, rfl⟩
    | cons v vs =>
      simp only [assign_all]
      rw [(ih vs _ q).1, (ih vs _ q).2]
      exact assign_max h p v q

theorem spec_channels_bounds (tmo co : Int) (h : Heap) : ∀ (ps : List Ptr) (inp : Int),
    List.Forall₂ (fun p v => v.1 ≤ (h p).max_input_channels ∧ v.2 ≤ (h p).max_output_channels)
      ps (spec_channels tmo co inp (chain_maxima h ps)) := by
  intro ps
  induction ps with
  | nil => intro inp; exact List.Forall₂.nil
  | cons p ps ih =>
    intro inp
    cases ps with
    | nil =>
      simp only [chain_maxima, List.map_cons, List.map_nil, spec_channels]
      refine List.Forall₂.cons ⟨min_le_right _ _, ?_⟩ List.Forall₂.nil
      exact le_trans (min_le_right _ _) (min_le_left _ _)
    | cons q ps2 =>
      have ih2 := ih (min tmo (min (h p).max_output_channels (h q).max_input_channels))
      simp only [chain_maxima, List.map_cons, spec_channels] at ih2 ⊢
      refine List.Forall₂.cons ⟨min_le_right _ _, ?_⟩ ih2
      exact le_trans (min_le_right _ _) (min_le_left _ _)

theorem assign_all_bounds : ∀ (ps : List Ptr) (vs : List (Int × Int)) (h : Heap),
    List.Forall₂ (fun p v => v.1 ≤ (h p).max_input_channels ∧ v.2 ≤ (h p).max_output_channels)
      ps vs →
    ∀ q ∈ ps, (assign_all h ps vs q).input_channels ≤ (h q).max_input_channels ∧
      (assign_all h ps vs q).output_channels ≤ (h q).max_output_channels := by
  intro ps
  induction ps with
  | nil => intro vs h _ q hq; cases hq
  | cons p ps ih =>
    intro vs h hf q hq
    cases hf with
    | cons hpv hrest =>
      rename_i v vs2
      simp only [assign_all]
      by_cases hmem : q ∈ ps
      · have hrest2 : List.Forall₂ (fun p2 v2 => v2.1 ≤ (assign h p v p2).max_input_channels ∧
            v2.2 ≤ (assign h p v p2).max_output_channels) ps vs2 := by
          refine hrest.imp ?_
          intro a b hab
          rw [(assign_max h p v a).1, (assign_max h p v a).2]
          exact hab
        have := ih vs2 (assign h p v) hrest2 q hmem
        rw [(assign_max h p v q).1, (assign_max h p v q).2] at this
        exact this
      · have hqp : q = p := by
          rcases List.mem_cons.mp hq with e | e
          · exact e
          · exact absurd e hmem
        subst hqp
        rw [assign_all_not_mem ps vs2 _ q hmem]
        simpa [assign, Heap.set, Processor.set_input_channels,
          Processor.set_output_channels] using hpv

theorem assign_all_last_out (tmo co : Int) : ∀ (ps : List Ptr) (h : Heap) (inp : Int) (last : Ptr),
    ps.getLast? = some last →
    (assign_all h ps (spec_channels tmo co inp (chain_maxima h ps)) last).output_channels ≤ co := by
  intro ps
  induction ps with
  | nil => intro h inp last hl; simp at hl
  | cons p ps ih =>
    intro h inp last hl
    cases ps with
    | nil =>
      have hpl : p = last := by simpa using hl
      subst hpl
      simp only [chain_maxima, List.map_cons, List.map_nil, spec_channels, assign_all]
      simp only [assign, Heap.set, Processor.set_output_channels, if_true]
      exact le_trans (min_le_right _ _) (min_le_right _ _)
    | cons q ps2 =>
      have hl2 : (q :: ps2).getLast? = some last := by
        simpa [List.getLast?_cons_cons] using hl
      have hcm : chain_maxima h (p :: q :: ps2) =
          ((h p).max_input_channels, (h p).max_output_channels) :: chain_maxima h (q :: ps2) := rfl
      rw [hcm]
      have hq : chain_maxima h (q :: ps2) =
          ((h q).max_input_channels, (h q).max_output_channels) :: chain_maxima h ps2 := rfl
      rw [hq]
      simp only [spec_channels, assign_all]
      rw [← hq, ← chain_maxima_assign h p
        (min inp (h p).max_input_channels,
          min tmo (min (h p).max_output_channels (h q).max_input_channels)) (q :: ps2)]
      exact ih _ _ last hl2

/-- The loop of `update_channel_config`, with its guarded setters and the final
clamp, stores the pairs of the recurrence in the processors in chain order. -/
theorem update_channel_config_eq (t : Track) (h : Heap) :
    update_channel_config t h = assign_all h t.processors (negotiated t h) := by
  have hloop := loop_eq t t.processors [] h t.current_input_channels (by simp)
  simp only [List.length_nil, Nat.add_zero, List.map_id_fun, id] at hloop
  have hloop2 : (List.foldl (update_channel_config_body t) (h, t.current_input_channels)
      (List.range t.processors.length)).1 = assign_all h t.processors (negotiated t h) := by
    simpa [negotiated] using hloop
  unfold update_channel_config
  simp only [hloop2]
  cases hl : t.processors.getLast? with
  | none => rfl
  | some last =>
    have hle := assign_all_last_out t.max_output_channels t.current_output_channels
      t.processors h t.current_input_channels last hl
    have hmin : min t.current_output_channels
        (assign_all h t.processors (negotiated t h) last).output_channels =
        (assign_all h t.processors (negotiated t h) last).output_channels :=
      min_eq_right hle
    simp only [hmin, ne_eq, not_true_eq_false, if_false]

theorem assign_all_nodup_get : ∀ (ps : List Ptr) (vs : List (Int × Int)) (h : Heap) (i : Nat),
    ps.Nodup → ps.length = vs.length → i < ps.length →
    (assign_all h ps vs (ps.getD i 0)).input_channels = (vs.getD i (0, 0)).1 ∧
    (assign_all h ps vs (ps.getD i 0)).output_channels = (vs.getD i (0, 0)).2 := by
  intro ps
  induction ps with
  | nil => intro vs h i _ _ hi; simp at hi
  | cons p ps ih =>
    intro vs h i hnd hlen hi
    cases vs with
    | nil => simp at hlen
    | cons v vs =>
      have hnd2 := List.nodup_cons.mp hnd
      cases i with
      | zero =>
        simp only [assign_all, List.getD_cons_zero]
        rw [assign_all_not_mem ps vs _ p hnd2.1]
        simp [assign, Heap.set, Processor.set_input_channels, Processor.set_output_channels]
      | succ j =>
        simp only [assign_all, List.getD_cons_succ]
        exact ih vs _ j hnd2.2 (by simpa using hlen) (by simpa using hi)

theorem spec_channels_head (tmo co inp : Int) (m : Int × Int) (rest : List (Int × Int)) :
    ((spec_channels tmo co inp (m :: rest)).getD 0 (0, 0)).1 = min inp m.1 := by
  cases rest <;> simp [spec_channels]

theorem spec_channels_link (tmo co : Int) : ∀ (ms : List (Int × Int)) (inp : Int) (i : Nat),
    i + 1 < ms.length →
    ((spec_channels tmo co inp ms).getD (i + 1) (0, 0)).1 =
      ((spec_channels tmo co inp ms).getD i (0, 0)).2 := by
  intro ms
  induction ms with
  | nil => intro inp i hi; simp at hi
  | cons m ms ih =>
    intro inp i hi
    cases ms with
    | nil => simp at hi
    | cons m2 rest =>
      simp only [spec_channels]
      cases i with
      | zero =>
        simp only [List.getD_cons_succ, List.getD_cons_zero, spec_channels_head]
        exact min_eq_left (le_trans (min_le_right _ _) (min_le_right _ _))
      | succ j =>
        simp only [List.getD_cons_succ]
        exact ih _ j (by simpa using hi)

theorem assign_event_output (h : Heap) (p : Ptr) (v : Int × Int) (q : Ptr) :
    (assign h p v q).event_output = (h q).event_output := by
  by_cases hq : q = p
  · subst hq
    simp [assign, Heap.set, Processor.set_input_channels, Processor.set_output_channels]
  · simp [assign, Heap.set, hq]

theorem assign_all_event_output : ∀ (ps : List Ptr) (vs : List (Int × Int)) (h : Heap) (q : Ptr),
    (assign_all h ps vs q).event_output = (h q).event_output := by
  intro ps
  induction ps with
  | nil => intro vs h q; cases vs <;> rfl
  | cons p ps ih =>
    intro vs h q
    cases vs with
    | nil => rfl
    | cons v vs =>
      simp only [assign_all]
      rw [ih vs _ q, assign_event_output]

theorem update_channel_config_event_output (t : Track) (h : Heap) (q : Ptr) :
    (update_channel_config t h q).event_output = (h q).event_output := by
  rw [update_channel_config_eq, assign_all_event_output]

theorem negotiated_length (t : Track) (h : Heap) :
    t.processors.length = (negotiated t h).length := by
  simp [negotiated, spec_channels_length, chain_maxima]

/-! ## C1: the invariants of the negotiated configuration -/

/-- C1 (as stated, refuted): `add` accepts the processors at addresses 0, 1 and
again 0 on a fresh track of four busses; on the resulting non-empty chain
`[0, 1, 0]` the configuration that `update_channel_config` leaves does not
satisfy the claimed invariants: the second slot reads 2 channels while the
first slot, the same object as the third, writes 8. -/
theorem update_channel_config_aliased_chain_unlinked :
    aliased_state.1.processors = [0, 1, 0] ∧ aliased_state.1.processors ≠ [] ∧
    ¬ (channels_within_maxima (update_channel_config aliased_state.1 aliased_state.2)
        aliased_state.1.processors ∧
       chain_linked (update_channel_config aliased_state.1 aliased_state.2)
        aliased_state.1.processors) := by
  refine ⟨by decide, by decide, ?_⟩
  rintro ⟨_, hl⟩
  have h1 := hl 0 (by decide)
  revert h1
  decide!

/-- C1 (amended): after `update_channel_config` every processor of the chain has
its input and output channel counts within its declared maxima, for every
chain; and when the processors of the chain are pairwise distinct, every
processor reads as many channels as its predecessor writes. -/
theorem update_channel_config_invariant (t : Track) (h : Heap) :
    channels_within_maxima (update_channel_config t h) t.processors ∧
    (t.processors.Nodup → chain_linked (update_channel_config t h) t.processors) := by
  rw [update_channel_config_eq]
  constructor
  · intro p hp
    have hb := assign_all_bounds t.processors (negotiated t h) h
      (spec_channels_bounds _ _ h t.processors _) p hp
    rw [(assign_all_max t.processors (negotiated t h) h p).1,
      (assign_all_max t.processors (negotiated t h) h p).2]
    exact hb
  · intro hnd i hi
    have hlen := negotiated_length t h
    have h1 := assign_all_nodup_get t.processors (negotiated t h) h (i + 1) hnd hlen hi
    have h2 := assign_all_nodup_get t.processors (negotiated t h) h i hnd hlen (by omega)
    rw [h1.1, h2.2]
    exact spec_channels_link _ _ _ _ i (by simpa [chain_maxima] using hi)

/-- C1 (witness): the chain `A, B, C` of scenario S3 has pairwise distinct
processors and satisfies both invariants after the negotiation. -/
theorem update_channel_config_invariant_witness :
    s3_track.processors.Nodup ∧
    channels_within_maxima (update_channel_config s3_track s3_heap) s3_track.processors ∧
    chain_linked (update_channel_config s3_track s3_heap) s3_track.processors :=
  ⟨by decide, (update_channel_config_invariant s3_track s3_heap).1,
    (update_channel_config_invariant s3_track s3_heap).2 (by decide)⟩

/-! ## C2: the negotiation computes the recurrence of the specification -/

/-- C2: `update_channel_config` performs exactly the assignments of the
recurrence of the specification, in chain order (`negotiated` computes the
pairs from the declared maxima, `assign_all` stores them); on a chain of
pairwise distinct processors the processor in slot `i` therefore holds the
`i`-th pair; and for `A(8,8)`, `B(2,2)`, `C(8,8)` on a stereo track every input
and output count is 2. -/
theorem update_channel_config_computes_recurrence (t : Track) (h : Heap) :
    update_channel_config t h = assign_all h t.processors (negotiated t h) ∧
    (t.processors.Nodup → ∀ i, i < t.processors.length →
      (update_channel_config t h (t.processors.getD i 0)).input_channels =
        ((negotiated t h).getD i (0, 0)).1 ∧
      (update_channel_config t h (t.processors.getD i 0)).output_channels =
        ((negotiated t h).getD i (0, 0)).2) ∧
    (∀ a b c : Ptr, a ≠ b → a ≠ c → b ≠ c → t.processors = [a, b, c] →
      t.current_input_channels = 2 → t.current_output_channels = 2 →
      t.max_output_channels = 2 →
      (h a).max_input_channels = 8 → (h a).max_output_channels = 8 →
      (h b).max_input_channels = 2 → (h b).max_output_channels = 2 →
      (h c).max_input_channels = 8 → (h c).max_output_channels = 8 →
      ∀ p ∈ [a, b, c], (update_channel_config t h p).input_channels = 2 ∧
        (update_channel_config t h p).output_channels = 2) := by
  refine ⟨update_channel_config_eq t h, ?_, ?_⟩
  · intro hnd i hi
    rw [update_channel_config_eq]
    exact assign_all_nodup_get t.processors (negotiated t h) h i hnd (negotiated_length t h) hi
  · intro a b c hab hac hbc hp hci hco hmo ha1 ha2 hb1 hb2 hc1 hc2 p hmem
    have hnd : t.processors.Nodup := by
      rw [hp]; simp [hab, hac, hbc]
    have hneg : negotiated t h = [(2, 2), (2, 2), (2, 2)] := by
      simp [negotiated, hp, chain_maxima, spec_channels, hci, hco, hmo, ha1, ha2, hb1, hb2,
        hc1, hc2]
    rw [update_channel_config_eq]
    have hget := fun i hi =>
      assign_all_nodup_get t.processors (negotiated t h) h i hnd (negotiated_length t h) hi
    rw [hneg, hp] at hget
    simp only [List.mem_cons, List.mem_singleton, List.not_mem_nil, or_false] at hmem
    rw [hneg, hp]
    rcases hmem with e | e | e
    · subst e; simpa using hget 0 (by simp)
    · subst e; simpa using hget 1 (by simp)
    · subst e; simpa using hget 2 (by simp)

/-- C2 (witness): scenario S3 at the addresses 0, 1, 2, and the second slot of
its chain read back against the recurrence. -/
theorem update_channel_config_computes_recurrence_witness :
    s3_track.processors.Nodup ∧
    ((update_channel_config s3_track s3_heap (s3_track.processors.getD 1 0)).input_channels =
        ((negotiated s3_track s3_heap).getD 1 (0, 0)).1 ∧
      (update_channel_config s3_track s3_heap (s3_track.processors.getD 1 0)).output_channels =
        ((negotiated s3_track s3_heap).getD 1 (0, 0)).2) ∧
    ((update_channel_config s3_track s3_heap 0).input_channels = 2 ∧
      (update_channel_config s3_track s3_heap 0).output_channels = 2) ∧
    ((update_channel_config s3_track s3_heap 1).input_channels = 2 ∧
      (update_channel_config s3_track s3_heap 1).output_channels = 2) ∧
    ((update_channel_config s3_track s3_heap 2).input_channels = 2 ∧
      (update_channel_config s3_track s3_heap 2).output_channels = 2) :=
  ⟨by decide,
    (update_channel_config_computes_recurrence s3_track s3_heap).2.1 (by decide) 1 (by decide),
    (update_channel_config_computes_recurrence s3_track s3_heap).2.2 0 1 2
      (by decide) (by decide) (by decide) rfl rfl rfl rfl rfl rfl rfl rfl rfl rfl 0 (by decide),
    (update_channel_config_computes_recurrence s3_track s3_heap).2.2 0 1 2
      (by decide) (by decide) (by decide) rfl rfl rfl rfl rfl rfl rfl rfl rfl rfl 1 (by decide),
    (update_channel_config_computes_recurrence s3_track s3_heap).2.2 0 1 2
      (by decide) (by decide) (by decide) rfl rfl rfl rfl rfl rfl rfl rfl rfl rfl 2 (by decide)⟩

/-! ## C3 to C6: `add` and `remove` -/

theorem add_rejected (M : Nat) (t : Track) (h : Heap) (p : Ptr)
    (hc : t.processors.length ≥ M ∨ p = t.self) : add M t h p = (false, t, h) := by
  simp [add, hc]

theorem add_accepted (M : Nat) (t : Track) (h : Heap) (p : Ptr)
    (hlen : t.processors.length < M) (hp : p ≠ t.self) :
    add M t h p = (true, { t with processors := t.processors ++ [p] },
      update_channel_config { t with processors := t.processors ++ [p] }
        (h.set p ((h p).set_event_output (some t.self)))) := by
  have hc : ¬ (t.processors.length ≥ M ∨ p = t.self) := by
    rintro (h1 | h1)
    · omega
    · exact hp h1
  simp only [add, hc, if_false]

/-- C3 (as stated, refuted): after `add` of the processor at address 1 to a fresh
stereo track the processor is in the chain, and a second `add` of the same
processor returns true and leaves it in the chain twice. -/
theorem add_accepts_present_processor :
    1 ∈ one_processor.1.processors ∧
    (add 16 one_processor.1 one_processor.2 1).1 = true ∧
    (add 16 one_processor.1 one_processor.2 1).2.1.processors = [1, 1] := by
  decide

/-- C3 (amended): `add` returns false exactly when the chain already holds
`TRACK_MAX_PROCESSORS` processors or more, or the processor is the track itself,
and then track and processors are unchanged; a processor that is already in
the chain is not rejected: when the chain is not full and the processor is not
the track, `add` returns true and appends it once more. -/
theorem add_rejects_only_full_or_self (M : Nat) (t : Track) (h : Heap) (p : Ptr) :
    ((add M t h p).1 = false ↔ (t.processors.length ≥ M ∨ p = t.self)) ∧
    ((add M t h p).1 = false → (add M t h p).2 = (t, h)) ∧
    (p ∈ t.processors → t.processors.length < M → p ≠ t.self →
      (add M t h p).1 = true ∧ (add M t h p).2.1.processors = t.processors ++ [p] ∧
      (add M t h p).2.1.processors.count p = t.processors.count p + 1) := by
  by_cases hc : t.processors.length ≥ M ∨ p = t.self
  · refine ⟨⟨fun _ => hc, fun _ => by rw [add_rejected M t h p hc]⟩,
      fun _ => by rw [add_rejected M t h p hc], ?_⟩
    intro _ hlen hp
    rcases hc with h1 | h1
    · omega
    · exact absurd h1 hp
  · have hlen : t.processors.length < M := by
      by_contra hn; exact hc (Or.inl (by omega))
    have hp : p ≠ t.self := fun e => hc (Or.inr e)
    have hacc := add_accepted M t h p hlen hp
    refine ⟨⟨fun hf => ?_, fun hcc => absurd hcc hc⟩, fun hf => ?_, fun _ _ _ => ?_⟩
    · rw [hacc] at hf; cases hf
    · rw [hacc] at hf; cases hf
    · rw [hacc]
      refine ⟨rfl, rfl, ?_⟩
      simp

/-- C3 (witness): the second `add` of the processor at address 1 is accepted,
and `add` of the track itself (address 100) is rejected and changes nothing. -/
theorem add_rejects_only_full_or_self_witness :
    (1 ∈ one_processor.1.processors ∧ one_processor.1.processors.length < 16 ∧
      1 ≠ one_processor.1.self) ∧
    ((add 16 one_processor.1 one_processor.2 1).1 = true ∧
      (add 16 one_processor.1 one_processor.2 1).2.1.processors =
        one_processor.1.processors ++ [1] ∧
      (add 16 one_processor.1 one_processor.2 1).2.1.processors.count 1 =
        one_processor.1.processors.count 1 + 1) ∧
    (add 16 one_processor.1 one_processor.2 100).1 = false ∧
    (add 16 one_processor.1 one_processor.2 100).2 = (one_processor.1, one_processor.2) :=
  ⟨⟨by decide, by decide, by decide⟩,
    (add_rejects_only_full_or_self 16 one_processor.1 one_processor.2 1).2.2
      (by decide) (by decide) (by decide),
    (add_rejects_only_full_or_self 16 one_processor.1 one_processor.2 100).1.mpr
      (Or.inr (by decide)),
    (add_rejects_only_full_or_self 16 one_processor.1 one_processor.2 100).2.1
      ((add_rejects_only_full_or_self 16 one_processor.1 one_processor.2 100).1.mpr
        (Or.inr (by decide)))⟩

/-- C4: `add` called with the track itself returns false and leaves the track
(its chain and its event queue) and every processor object (channel
configuration and event output) as they were, in every state. -/
theorem add_self_rejected (M : Nat) (t : Track) (h : Heap) :
    (add M t h t.self).1 = false ∧ (add M t h t.self).2.1 = t ∧ (add M t h t.self).2.2 = h := by
  rw [add_rejected M t h t.self (Or.inr rfl)]
  exact ⟨rfl, rfl, rfl⟩

theorem add_length_le (M : Nat) (t : Track) (h : Heap) (p : Ptr)
    (hle : t.processors.length ≤ M) : (add M t h p).2.1.processors.length ≤ M := by
  by_cases hc : t.processors.length ≥ M ∨ p = t.self
  · rw [add_rejected M t h p hc]; exact hle
  · have hlen : t.processors.length < M := by
      by_contra hn; exact hc (Or.inl (by omega))
    have hp : p ≠ t.self := fun e => hc (Or.inr e)
    rw [add_accepted M t h p hlen hp]
    simp only [List.length_append, List.length_singleton]
    omega

theorem remove_length_le (t : Track) (h : Heap) (x : ObjectId) :
    (remove t h x).2.1.processors.length ≤ t.processors.length := by
  unfold remove
  cases remove_find h x t.processors 0 with
  | none => exact le_refl _
  | some i =>
    simp only [List.length_eraseIdx]
    split_ifs <;> omega

theorem run_ops_length_le (M : Nat) (ops : List TrackOp) : ∀ (s : Track × Heap),
    s.1.processors.length ≤ M → (run_ops M s ops).1.processors.length ≤ M := by
  induction ops with
  | nil => intro s hs; exact hs
  | cons op ops ih =>
    intro s hs
    have hstep : (apply_op M s op).1.processors.length ≤ M := by
      cases op with
      | add p => exact add_length_le M s.1 s.2 p hs
      | remove x => exact le_trans (remove_length_le s.1 s.2 x) hs
    exact ih _ hstep

/-- C5: in every state reached from a track fresh from either constructor by a
sequence of `add` and `remove` calls the chain holds at most
`TRACK_MAX_PROCESSORS` processors, and `add` returns false and changes nothing
whenever the chain already holds that many or more. -/
theorem chain_length_bounded (M : Nat) (self : Ptr) (id : ObjectId) (frames : Nat)
    (h : Heap) (ops : List TrackOp) :
    (∀ channels : Int,
      (run_ops M (Track.simple self id frames channels, h) ops).1.processors.length ≤ M) ∧
    (∀ input_busses output_busses : Int,
      (run_ops M (Track.multibus_track self id frames input_busses output_busses, h)
        ops).1.processors.length ≤ M) ∧
    (∀ (t : Track) (g : Heap) (p : Ptr), t.processors.length ≥ M →
      add M t g p = (false, t, g)) := by
  refine ⟨fun c => run_ops_length_le M ops _ (Nat.zero_le _),
    fun a b => run_ops_length_le M ops _ (Nat.zero_le _),
    fun t g p hlen => add_rejected M t g p (Or.inl hlen)⟩

/-- C5 (witness): with room for one processor, a track that holds the processor
at address 1 rejects the processor at address 2. -/
theorem chain_length_bounded_witness :
    one_processor.1.processors.length ≥ 1 ∧
    add 1 one_processor.1 one_processor.2 2 = (false, one_processor.1, one_processor.2) :=
  ⟨by decide, (chain_length_bounded 1 100 100 64 narrow_heap []).2.2
    one_processor.1 one_processor.2 2 (by decide)⟩

/-- C6: on a chain that is not full, `add` of a processor that is neither the
track nor in the chain returns true; the track is unchanged but for its chain,
which is the old chain followed by the processor (so the processor is last,
occurs once, and the others keep their places); the event output of the
processor is the track and no other event output changes; and the processors
hold the configuration `update_channel_config` negotiates for the new chain,
which is the recurrence of the specification. -/
theorem add_appends_processor (M : Nat) (t : Track) (h : Heap) (p : Ptr)
    (hlen : t.processors.length < M) (hself : p ≠ t.self) (hnew : p ∉ t.processors) :
    (add M t h p).1 = true ∧
    (add M t h p).2.1 = { t with processors := t.processors ++ [p] } ∧
    (add M t h p).2.1.processors.getLast? = some p ∧
    (add M t h p).2.1.processors.count p = 1 ∧
    (∀ i, i < t.processors.length →
      (add M t h p).2.1.processors.getD i 0 = t.processors.getD i 0) ∧
    ((add M t h p).2.2 p).event_output = some t.self ∧
    (∀ q, q ≠ p → ((add M t h p).2.2 q).event_output = (h q).event_output) ∧
    (add M t h p).2.2 = update_channel_config (add M t h p).2.1
      (h.set p ((h p).set_event_output (some t.self))) ∧
    (add M t h p).2.2 = assign_all (h.set p ((h p).set_event_output (some t.self)))
      (t.processors ++ [p]) (negotiated (add M t h p).2.1 h) := by
  rw [add_accepted M t h p hlen hself]
  refine ⟨rfl, rfl, by simp, ?_, ?_, ?_, ?_, rfl, ?_⟩
  · simp [List.count_append, List.count_eq_zero_of_not_mem hnew]
  · intro i hi
    simp [List.getElem?_append_left hi]
  · rw [update_channel_config_event_output]
    simp [Heap.set, Processor.set_event_output]
  · intro q hq
    rw [update_channel_config_event_output]
    simp [Heap.set, hq]
  · rw [update_channel_config_eq]
    have hm : chain_maxima (h.set p ((h p).set_event_output (some t.self)))
        (t.processors ++ [p]) = chain_maxima h (t.processors ++ [p]) := by
      apply List.map_congr_left
      intro a _
      by_cases ha : a = p
      · subst ha; simp [Heap.set, Processor.set_event_output]
      · simp [Heap.set, ha]
    simp only [negotiated, hm]

/-- C6 (witness): `add` of the processor at address 2 to the stereo track that
holds the processor at address 1. -/
theorem add_appends_processor_witness :
    (one_processor.1.processors.length < 16 ∧ 2 ≠ one_processor.1.self ∧
      2 ∉ one_processor.1.processors) ∧
    (add 16 one_processor.1 one_processor.2 2).1 = true ∧
    (add 16 one_processor.1 one_processor.2 2).2.1.processors.getLast? = some 2 ∧
    (add 16 one_processor.1 one_processor.2 2).2.1.processors.getD 0 0 =
      one_processor.1.processors.getD 0 0 ∧
    ((add 16 one_processor.1 one_processor.2 2).2.2 2).event_output =
      some one_processor.1.self ∧
    ((add 16 one_processor.1 one_processor.2 2).2.2 1).event_output =
      (one_processor.2 1).event_output :=
  ⟨⟨by decide, by decide, by decide⟩,
    (add_appends_processor 16 one_processor.1 one_processor.2 2
      (by decide) (by decide) (by decide)).1,
    (add_appends_processor 16 one_processor.1 one_processor.2 2
      (by decide) (by decide) (by decide)).2.2.1,
    (add_appends_processor 16 one_processor.1 one_processor.2 2
      (by decide) (by decide) (by decide)).2.2.2.2.1 0 (by decide),
    (add_appends_processor 16 one_processor.1 one_processor.2 2
      (by decide) (by decide) (by decide)).2.2.2.2.2.1,
    (add_appends_processor 16 one_processor.1 one_processor.2 2
      (by decide) (by decide) (by decide)).2.2.2.2.2.2.1 1 (by decide)⟩

/-! ## C7 to C10: the audio path and the pan law -/

theorem apply_pan_and_gain_cons_cons (PAN g pan : ℚ) (c0 c1 : Channel)
    (rest : ChunkSampleBuffer) :
    apply_pan_and_gain PAN (c0 :: c1 :: rest) g pan =
      c0.map (fun x => x * (if pan < 0 then g * (1 + pan - PAN * pan) else g * (1 - pan))) ::
      c1.map (fun x => x * (if pan < 0 then g * (1 + pan) else g * (1 - pan + PAN * pan))) ::
      rest := by
  by_cases hp : pan < 0 <;>
    simp [apply_pan_and_gain, store_view, apply_gain, create_non_owning_buffer,
      LEFT_CHANNEL_INDEX, RIGHT_CHANNEL_INDEX, hp]

theorem forward_fold (evs : List RtEvent) : ∀ (tr : Track),
    evs.foldl (fun tr event => tr.output_event (forwarded_event tr event)) tr =
      { tr with output_events := tr.output_events ++ evs.map (forwarded_event tr) } := by
  induction evs with
  | nil => intro tr; simp
  | cons e evs ih =>
    intro tr
    have hf : forwarded_event (tr.output_event (forwarded_event tr e)) = forwarded_event tr := rfl
    rw [List.foldl_cons, ih, hf]
    simp [Track.output_event]

theorem process_audio_empty (capacity : Nat) (t : Track) (h : Heap)
    (inp out : ChunkSampleBuffer) (hempty : t.processors = []) :
    process_audio capacity t h inp out =
      ({ t with event_buffer := []
                output_events := t.output_events ++ t.event_buffer.map (forwarded_event t) },
        h, inp.take t.current_output_channels.toNat) := by
  simp only [process_audio, hempty, List.foldl_nil, List.getLast?_nil, forward_fold,
    create_non_owning_buffer, List.drop_zero]
  rfl

/-- C7 (the code at the failing input): a stereo track whose chain is the one
doubling processor turns the input block of samples 1 into a block of samples
2 inside the processor, yet `process_audio` leaves the input block itself in
`out`; and with two doubling processors in the chain the block the loop leaves
in `out` is the track input doubled once, not twice: the second processor was
handed the track input again. -/
theorem process_audio_discards_chain_output :
    one_doubler.1.processors = [1] ∧
    (one_doubler.2 1).input_channels = 2 ∧ (one_doubler.2 1).output_channels = 2 ∧
    (one_doubler.2 1).process_audio_fn [[1, 1], [1, 1]] [[0, 0], [0, 0]] = [[2, 2], [2, 2]] ∧
    (process_audio 8 one_doubler.1 one_doubler.2 [[1, 1], [1, 1]] [[0, 0], [0, 0]]).2.2 =
      [[1, 1], [1, 1]] ∧
    two_doublers.1.processors = [1, 2] ∧
    (two_doublers.1.processors.foldl (process_audio_step 8 [[1, 1], [1, 1]])
      (two_doublers.1, two_doublers.2, [[0, 0], [0, 0]])).2.2 = [[2, 2], [2, 2]] := by
  decide!

/-- C9 (the code at the failing input): on a track of two output busses with no
processors, bus gains 2 and 3, both pans 0 and samples 1 on the four input
channels, `render` leaves 6 on channels 0 and 1 and 1 on channels 2 and 3: both
bus gains were applied to the first pair and none to the second. -/
theorem render_applies_every_bus_to_first_pair :
    two_bus_track.processors = [] ∧ two_bus_track.output_busses = 2 ∧
    two_bus_track.gain_parameters = [2, 3] ∧ two_bus_track.pan_parameters = [0, 0] ∧
    (render 8 (293 / 1000) two_bus_track doubling_heap).1.output_buffer =
      [[6], [6], [1], [1]] := by
  decide!

/-- C10: on a buffer of at least 2 channels `apply_pan_and_gain` keeps the channel
count, multiplies every sample of channel 0 by `L` and every sample of channel 1
by `R` and leaves every other channel as it was, where for `pan < 0`
`L = g * (1 + pan - PAN_GAIN_3_DB * pan)` and `R = g * (1 + pan)`, and otherwise
`L = g * (1 - pan)` and `R = g * (1 - pan + PAN_GAIN_3_DB * pan)`; with `g = 1`,
`pan = -1` and `PAN_GAIN_3_DB = 0.293` these are `L = 0.293` and `R = 0`. -/
theorem apply_pan_and_gain_effect (PAN g pan : ℚ) (buffer : ChunkSampleBuffer)
    (h2 : 2 ≤ buffer.length) :
    (apply_pan_and_gain PAN buffer g pan).length = buffer.length ∧
    (apply_pan_and_gain PAN buffer g pan).getD 0 [] = (buffer.getD 0 []).map
      (fun x => x * (if pan < 0 then g * (1 + pan - PAN * pan) else g * (1 - pan))) ∧
    (apply_pan_and_gain PAN buffer g pan).getD 1 [] = (buffer.getD 1 []).map
      (fun x => x * (if pan < 0 then g * (1 + pan) else g * (1 - pan + PAN * pan))) ∧
    (∀ c, 2 ≤ c → (apply_pan_and_gain PAN buffer g pan)[c]? = buffer[c]?) ∧
    (PAN = 293 / 1000 → g = 1 → pan = -1 →
      (if pan < 0 then g * (1 + pan - PAN * pan) else g * (1 - pan)) = 293 / 1000 ∧
      (if pan < 0 then g * (1 + pan) else g * (1 - pan + PAN * pan)) = 0) := by
  match buffer, h2 with
  | c0 :: c1 :: rest, _ =>
    rw [apply_pan_and_gain_cons_cons]
    refine ⟨rfl, rfl, rfl, ?_, ?_⟩
    · intro c hc
      obtain ⟨k, rfl⟩ : ∃ k, c = k + 2 := ⟨c - 2, by omega⟩
      simp
    · rintro rfl rfl rfl
      norm_num

/-- C10 (witness): scenario S2, a stereo pair of samples 1 panned hard left, with
a third channel that stays as it was. -/
theorem apply_pan_and_gain_effect_witness :
    (apply_pan_and_gain (293 / 1000) [[1], [1], [5]] 1 (-1)).length = 3 ∧
    (apply_pan_and_gain (293 / 1000) [[1], [1], [5]] 1 (-1)).getD 0 [] = [293 / 1000] ∧
    (apply_pan_and_gain (293 / 1000) [[1], [1], [5]] 1 (-1)).getD 1 [] = [0] ∧
    (apply_pan_and_gain (293 / 1000) [[1], [1], [5]] 1 (-1))[2]? = some [5] ∧
    (if (-1 : ℚ) < 0 then (1 : ℚ) * (1 + -1 - 293 / 1000 * -1) else 1 * (1 - -1)) =
      293 / 1000 ∧
    (if (-1 : ℚ) < 0 then (1 : ℚ) * (1 + -1) else 1 * (1 - -1 + 293 / 1000 * -1)) = 0 :=
  ⟨(apply_pan_and_gain_effect (293 / 1000) 1 (-1) [[1], [1], [5]] (by decide)).1,
    by rw [(apply_pan_and_gain_effect (293 / 1000) 1 (-1) [[1], [1], [5]] (by decide)).2.1]
       norm_num,
    by rw [(apply_pan_and_gain_effect (293 / 1000) 1 (-1) [[1], [1], [5]] (by decide)).2.2.1]
       norm_num,
    (apply_pan_and_gain_effect (293 / 1000) 1 (-1) [[1], [1], [5]] (by decide)).2.2.2.1 2
      (le_refl 2),
    ((apply_pan_and_gain_effect (293 / 1000) 1 (-1) [[1], [1], [5]] (by decide)).2.2.2.2
      rfl rfl rfl).1,
    ((apply_pan_and_gain_effect (293 / 1000) 1 (-1) [[1], [1], [5]] (by decide)).2.2.2.2
      rfl rfl rfl).2⟩

/-! ## C11 and C12: the pan law as a function of pan -/

theorem apply_pan_and_gain_eq_gains (PAN g pan : ℚ) (buffer : ChunkSampleBuffer) :
    apply_pan_and_gain PAN buffer g pan =
      store_view
        (store_view buffer LEFT_CHANNEL_INDEX
          (apply_gain (create_non_owning_buffer buffer LEFT_CHANNEL_INDEX 1) (pan_gains PAN g pan).1))
        RIGHT_CHANNEL_INDEX
        (apply_gain
          (create_non_owning_buffer
            (store_view buffer LEFT_CHANNEL_INDEX
              (apply_gain (create_non_owning_buffer buffer LEFT_CHANNEL_INDEX 1)
                (pan_gains PAN g pan).1))
            RIGHT_CHANNEL_INDEX 1)
          (pan_gains PAN g pan).2) := rfl

theorem pan_gains_neg (PAN g pan : ℚ) (hp : pan < 0) :
    pan_gains PAN g pan = (g * (1 + pan - PAN * pan), g * (1 + pan)) := by
  simp [pan_gains, hp]

theorem pan_gains_nonneg (PAN g pan : ℚ) (hp : 0 ≤ pan) :
    pan_gains PAN g pan = (g * (1 - pan), g * (1 - pan + PAN * pan)) := by
  simp [pan_gains, not_lt.mpr hp]

/-- C11: the gains `apply_pan_and_gain` applies are `pan_gains`; for every gain `g`, at
`pan = 0` the left and the right gain are both `g`, and the formulas of the
`pan < 0` branch evaluated at 0 give `g` as well; at `pan = -1` the right gain
is 0; at `pan = +1` the left gain is 0. -/
theorem pan_law_endpoints (PAN g : ℚ) :
    (∀ (buffer : ChunkSampleBuffer) (pan : ℚ), apply_pan_and_gain PAN buffer g pan =
      store_view
        (store_view buffer LEFT_CHANNEL_INDEX
          (apply_gain (create_non_owning_buffer buffer LEFT_CHANNEL_INDEX 1) (pan_gains PAN g pan).1))
        RIGHT_CHANNEL_INDEX
        (apply_gain
          (create_non_owning_buffer
            (store_view buffer LEFT_CHANNEL_INDEX
              (apply_gain (create_non_owning_buffer buffer LEFT_CHANNEL_INDEX 1)
                (pan_gains PAN g pan).1))
            RIGHT_CHANNEL_INDEX 1)
          (pan_gains PAN g pan).2)) ∧
    pan_gains PAN g 0 = (g, g) ∧
    (g * (1 + 0 - PAN * 0), g * (1 + 0)) = (g, g) ∧
    (pan_gains PAN g (-1)).2 = 0 ∧
    (pan_gains PAN g 1).1 = 0 := by
  refine ⟨fun buffer pan => rfl, ?_, ?_, ?_, ?_⟩
  · rw [pan_gains_nonneg PAN g 0 (le_refl 0)]; simp
  · simp
  · rw [pan_gains_neg PAN g (-1) (by norm_num)]; simp
  · rw [pan_gains_nonneg PAN g 1 (by norm_num)]; simp

theorem left_gain_continuous (PAN g : ℚ) : Continuous fun pan : ℚ => (pan_gains PAN g pan).1 := by
  have h : (fun pan : ℚ => (pan_gains PAN g pan).1) =
      fun pan : ℚ => if (0 : ℚ) ≤ pan then g * (1 - pan) else g * (1 + pan - PAN * pan) := by
    funext pan
    by_cases hp : pan < 0
    · rw [pan_gains_neg PAN g pan hp, if_neg (not_le.mpr hp)]
    · rw [pan_gains_nonneg PAN g pan (not_lt.mp hp), if_pos (not_lt.mp hp)]
  rw [h]
  refine Continuous.if_le (by fun_prop) (by fun_prop) continuous_const continuous_id ?_
  intro x hx
  subst hx
  ring

theorem right_gain_continuous (PAN g : ℚ) : Continuous fun pan : ℚ => (pan_gains PAN g pan).2 := by
  have h : (fun pan : ℚ => (pan_gains PAN g pan).2) =
      fun pan : ℚ => if (0 : ℚ) ≤ pan then g * (1 - pan + PAN * pan) else g * (1 + pan) := by
    funext pan
    by_cases hp : pan < 0
    · rw [pan_gains_neg PAN g pan hp, if_neg (not_le.mpr hp)]
    · rw [pan_gains_nonneg PAN g pan (not_lt.mp hp), if_pos (not_lt.mp hp)]
  rw [h]
  refine Continuous.if_le (by fun_prop) (by fun_prop) continuous_const continuous_id ?_
  intro x hx
  subst hx
  ring

theorem pan_gains_piecewise_monotone (PAN g : ℚ) (hg : 0 ≤ g) (hP : PAN < 1) :
    MonotoneOn (fun pan : ℚ => (pan_gains PAN g pan).1) (Set.Icc (-1) 0) ∧
    AntitoneOn (fun pan : ℚ => (pan_gains PAN g pan).1) (Set.Icc 0 1) ∧
    MonotoneOn (fun pan : ℚ => (pan_gains PAN g pan).2) (Set.Icc (-1) 0) ∧
    AntitoneOn (fun pan : ℚ => (pan_gains PAN g pan).2) (Set.Icc 0 1) := by
  refine ⟨?_, ?_, ?_, ?_⟩
  · intro a ha b hb hab
    simp only
    rcases lt_or_eq_of_le hb.2 with hb0 | hb0
    · have ha0 : a < 0 := lt_of_le_of_lt hab hb0
      rw [pan_gains_neg PAN g a ha0, pan_gains_neg PAN g b hb0]
      simp only
      nlinarith [mul_nonneg hg (sub_nonneg.mpr hab), mul_nonneg (mul_nonneg hg (sub_nonneg.mpr hab)) (sub_nonneg.mpr hP.le)]
    · subst hb0
      rw [pan_gains_nonneg PAN g 0 (le_refl 0)]
      rcases lt_or_eq_of_le hab with ha0 | ha0
      · rw [pan_gains_neg PAN g a ha0]
        simp only
        nlinarith [mul_nonneg hg (neg_nonneg.mpr ha0.le), mul_nonneg (mul_nonneg hg (neg_nonneg.mpr ha0.le)) (sub_nonneg.mpr hP.le)]
      · subst ha0
        rw [pan_gains_nonneg PAN g 0 (le_refl 0)]
  · intro a ha b hb hab
    simp only
    rw [pan_gains_nonneg PAN g a ha.1, pan_gains_nonneg PAN g b hb.1]
    simp only
    nlinarith [mul_nonneg hg (sub_nonneg.mpr hab)]
  · intro a ha b hb hab
    simp only
    rcases lt_or_eq_of_le hb.2 with hb0 | hb0
    · have ha0 : a < 0 := lt_of_le_of_lt hab hb0
      rw [pan_gains_neg PAN g a ha0, pan_gains_neg PAN g b hb0]
      simp only
      nlinarith [mul_nonneg hg (sub_nonneg.mpr hab)]
    · subst hb0
      rw [pan_gains_nonneg PAN g 0 (le_refl 0)]
      rcases lt_or_eq_of_le hab with ha0 | ha0
      · rw [pan_gains_neg PAN g a ha0]
        simp only
        nlinarith [mul_nonneg hg (neg_nonneg.mpr ha0.le)]
      · subst ha0
        rw [pan_gains_nonneg PAN g 0 (le_refl 0)]
  · intro a ha b hb hab
    simp only
    rw [pan_gains_nonneg PAN g a ha.1, pan_gains_nonneg PAN g b hb.1]
    simp only
    nlinarith [mul_nonneg hg (sub_nonneg.mpr hab), mul_nonneg (mul_nonneg hg (sub_nonneg.mpr hab)) (sub_nonneg.mpr hP.le)]

theorem pan_gains_globally_monotone (PAN g : ℚ) (hg : 0 ≤ g) (hP : 1 ≤ PAN) :
    Antitone (fun pan : ℚ => (pan_gains PAN g pan).1) ∧
    Monotone (fun pan : ℚ => (pan_gains PAN g pan).2) := by
  constructor
  · intro a b hab
    simp only
    by_cases hb0 : b < 0
    · have ha0 : a < 0 := lt_of_le_of_lt hab hb0
      rw [pan_gains_neg PAN g a ha0, pan_gains_neg PAN g b hb0]
      simp only
      nlinarith [mul_nonneg (mul_nonneg hg (sub_nonneg.mpr hab)) (sub_nonneg.mpr hP)]
    · rw [pan_gains_nonneg PAN g b (not_lt.mp hb0)]
      by_cases ha0 : a < 0
      · rw [pan_gains_neg PAN g a ha0]
        simp only
        nlinarith [mul_nonneg hg (not_lt.mp hb0), mul_nonneg (mul_nonneg hg (neg_nonneg.mpr ha0.le)) (sub_nonneg.mpr hP)]
      · rw [pan_gains_nonneg PAN g a (not_lt.mp ha0)]
        simp only
        nlinarith [mul_nonneg hg (sub_nonneg.mpr hab)]
  · intro a b hab
    simp only
    by_cases hb0 : b < 0
    · have ha0 : a < 0 := lt_of_le_of_lt hab hb0
      rw [pan_gains_neg PAN g a ha0, pan_gains_neg PAN g b hb0]
      simp only
      nlinarith [mul_nonneg hg (sub_nonneg.mpr hab)]
    · rw [pan_gains_nonneg PAN g b (not_lt.mp hb0)]
      by_cases ha0 : a < 0
      · rw [pan_gains_neg PAN g a ha0]
        simp only
        nlinarith [mul_nonneg hg (neg_nonneg.mpr ha0.le), mul_nonneg (mul_nonneg hg (not_lt.mp hb0)) (sub_nonneg.mpr hP)]
      · rw [pan_gains_nonneg PAN g a (not_lt.mp ha0)]
        simp only
        nlinarith [mul_nonneg (mul_nonneg hg (sub_nonneg.mpr hab)) (sub_nonneg.mpr hP)]

/-- C12 (as stated, refuted): with `g = 1` and `PAN_GAIN_3_DB = 0.293`, neither the
left nor the right gain is monotonic over `[-1, +1]`: both rise from `pan = -1`
to `pan = 0` and fall from `pan = 0` to `pan = +1`. -/
theorem pan_gains_not_monotone_on_range :
    (0 : ℚ) ≤ 1 ∧ (0 : ℚ) < 293 / 1000 ∧ (293 / 1000 : ℚ) < 1 ∧
    ¬ MonotoneOn (fun pan : ℚ => (pan_gains (293 / 1000) 1 pan).1) (Set.Icc (-1) 1) ∧
    ¬ AntitoneOn (fun pan : ℚ => (pan_gains (293 / 1000) 1 pan).1) (Set.Icc (-1) 1) ∧
    ¬ MonotoneOn (fun pan : ℚ => (pan_gains (293 / 1000) 1 pan).2) (Set.Icc (-1) 1) ∧
    ¬ AntitoneOn (fun pan : ℚ => (pan_gains (293 / 1000) 1 pan).2) (Set.Icc (-1) 1) := by
  have hm1 : (-1 : ℚ) ∈ Set.Icc (-1 : ℚ) 1 := ⟨le_refl _, by norm_num⟩
  have h0 : (0 : ℚ) ∈ Set.Icc (-1 : ℚ) 1 := ⟨by norm_num, by norm_num⟩
  have h1 : (1 : ℚ) ∈ Set.Icc (-1 : ℚ) 1 := ⟨by norm_num, le_refl _⟩
  have e0 : pan_gains (293 / 1000) 1 0 = (1, 1) := by
    rw [pan_gains_nonneg _ _ 0 (le_refl 0)]; norm_num
  have em : pan_gains (293 / 1000) 1 (-1) = (293 / 1000, 0) := by
    rw [pan_gains_neg _ _ (-1) (by norm_num)]; norm_num
  have e1 : pan_gains (293 / 1000) 1 1 = (0, 293 / 1000) := by
    rw [pan_gains_nonneg _ _ 1 (by norm_num)]; norm_num
  refine ⟨by norm_num, by norm_num, by norm_num, ?_, ?_, ?_, ?_⟩
  · intro hmon
    have := hmon h0 h1 (by norm_num)
    simp only [e0, e1] at this
    norm_num at this
  · intro hmon
    have := hmon hm1 h0 (by norm_num)
    simp only [e0, em] at this
    norm_num at this
  · intro hmon
    have := hmon h0 h1 (by norm_num)
    simp only [e0, e1] at this
    norm_num at this
  · intro hmon
    have := hmon hm1 h0 (by norm_num)
    simp only [e0, em] at this
    norm_num at this

/-- C12 (amended): for every gain `g >= 0`, in exact arithmetic, the left and the
right gain are continuous functions of `pan`; with `PAN_GAIN_3_DB < 1` each of
them is non-decreasing on `[-1, 0]` and non-increasing on `[0, +1]`; it is with
`PAN_GAIN_3_DB >= 1` that the left gain is non-increasing and the right gain
non-decreasing over the whole range. -/
theorem pan_gains_continuous_piecewise_monotone (PAN g : ℚ) (hg : 0 ≤ g) :
    Continuous (fun pan : ℚ => (pan_gains PAN g pan).1) ∧
    Continuous (fun pan : ℚ => (pan_gains PAN g pan).2) ∧
    (0 < PAN → PAN < 1 →
      MonotoneOn (fun pan : ℚ => (pan_gains PAN g pan).1) (Set.Icc (-1) 0) ∧
      AntitoneOn (fun pan : ℚ => (pan_gains PAN g pan).1) (Set.Icc 0 1) ∧
      MonotoneOn (fun pan : ℚ => (pan_gains PAN g pan).2) (Set.Icc (-1) 0) ∧
      AntitoneOn (fun pan : ℚ => (pan_gains PAN g pan).2) (Set.Icc 0 1)) ∧
    (1 ≤ PAN →
      Antitone (fun pan : ℚ => (pan_gains PAN g pan).1) ∧
      Monotone (fun pan : ℚ => (pan_gains PAN g pan).2)) :=
  ⟨left_gain_continuous PAN g, right_gain_continuous PAN g,
    fun _ hP => pan_gains_piecewise_monotone PAN g hg hP,
    fun hP => pan_gains_globally_monotone PAN g hg hP⟩

/-- C12 (witness): gain 1 with `PAN_GAIN_3_DB = 0.293`, and with the constant 1.41. -/
theorem pan_gains_continuous_piecewise_monotone_witness :
    ((0 : ℚ) ≤ 1 ∧ (0 : ℚ) < 293 / 1000 ∧ (293 / 1000 : ℚ) < 1 ∧ (1 : ℚ) ≤ 141 / 100) ∧
    Continuous (fun pan : ℚ => (pan_gains (293 / 1000) 1 pan).1) ∧
    Continuous (fun pan : ℚ => (pan_gains (293 / 1000) 1 pan).2) ∧
    (MonotoneOn (fun pan : ℚ => (pan_gains (293 / 1000) 1 pan).1) (Set.Icc (-1) 0) ∧
      AntitoneOn (fun pan : ℚ => (pan_gains (293 / 1000) 1 pan).1) (Set.Icc 0 1) ∧
      MonotoneOn (fun pan : ℚ => (pan_gains (293 / 1000) 1 pan).2) (Set.Icc (-1) 0) ∧
      AntitoneOn (fun pan : ℚ => (pan_gains (293 / 1000) 1 pan).2) (Set.Icc 0 1)) ∧
    (Antitone (fun pan : ℚ => (pan_gains (141 / 100) 1 pan).1) ∧
      Monotone (fun pan : ℚ => (pan_gains (141 / 100) 1 pan).2)) :=
  ⟨⟨by norm_num, by norm_num, by norm_num, by norm_num⟩,
    (pan_gains_continuous_piecewise_monotone (293 / 1000) 1 (by norm_num)).1,
    (pan_gains_continuous_piecewise_monotone (293 / 1000) 1 (by norm_num)).2.1,
    (pan_gains_continuous_piecewise_monotone (293 / 1000) 1 (by norm_num)).2.2.1
      (by norm_num) (by norm_num),
    (pan_gains_continuous_piecewise_monotone (141 / 100) 1 (by norm_num)).2.2.2
      (by norm_num)⟩

/-! ## C13 to C15 and C18: events -/

theorem process_event_keyboard (capacity : Nat) (t : Track) (e : RtEvent)
    (hk : keyboard_family e) :
    t.process_event capacity e =
      { t with event_buffer := rt_fifo_push capacity t.event_buffer e } := by
  rcases hk with h | h | h | h <;> simp [Track.process_event, h]

theorem process_event_other (capacity : Nat) (t : Track) (e : RtEvent)
    (hk : ¬ keyboard_family e) : t.process_event capacity e = t := by
  cases e with
  | keyboard ty pid off n v => cases ty <;> simp [keyboard_family, RtEvent.type] at hk
  | wrapped_midi pid off d => simp [keyboard_family, RtEvent.type] at hk
  | other ty pid off pl => rfl

theorem send_event_other (capacity : Nat) (t : Track) (e : RtEvent)
    (hk : ¬ keyboard_family e) : t.send_event capacity e = t.output_event e := by
  cases e with
  | keyboard ty pid off n v => cases ty <;> simp [keyboard_family, RtEvent.type] at hk
  | wrapped_midi pid off d => simp [keyboard_family, RtEvent.type] at hk
  | other ty pid off pl => rfl

theorem queue_all (capacity : Nat) : ∀ (evs : List RtEvent) (t : Track),
    (∀ e ∈ evs, keyboard_family e) → t.event_buffer.length + evs.length ≤ capacity →
    evs.foldl (Track.process_event capacity) t =
      { t with event_buffer := t.event_buffer ++ evs } := by
  intro evs
  induction evs with
  | nil => intro t _ _; simp
  | cons e evs ih =>
    intro t hk hfit
    have hlt : t.event_buffer.length < capacity := by
      simp only [List.length_cons] at hfit; omega
    have hpush : rt_fifo_push capacity t.event_buffer e = t.event_buffer ++ [e] := by
      simp [rt_fifo_push, hlt]
    rw [List.foldl_cons, process_event_keyboard capacity t e (hk e (List.mem_cons_self _ _)),
      hpush]
    rw [ih _ (fun x hx => hk x (List.mem_cons_of_mem _ hx))]
    · simp
    · simp only [List.length_append, List.length_singleton, List.length_cons,
        List.length_nil] at hfit ⊢
      omega

theorem forwarded_event_keyboard (t : Track) (e : RtEvent) (hk : keyboard_family e) :
    (forwarded_event t e).type = e.type ∧
    (forwarded_event t e).processor_id = t.id ∧
    (forwarded_event t e).sample_offset = e.sample_offset ∧
    (forwarded_event t e).note = e.note ∧
    (forwarded_event t e).velocity = e.velocity ∧
    (forwarded_event t e).midi_data = e.midi_data := by
  cases e with
  | keyboard ty pid off n v => cases ty <;> exact ⟨rfl, rfl, rfl, rfl, rfl, rfl⟩
  | wrapped_midi pid off d => exact ⟨rfl, rfl, rfl, rfl, rfl, rfl⟩
  | other ty pid off pl => simp [keyboard_family, RtEvent.type] at hk

theorem deliver_events_eq : ∀ (evs : List RtEvent) (p : Processor),
    deliver_events evs p = { p with received_events := p.received_events ++ evs } := by
  intro evs
  induction evs with
  | nil => intro p; simp [deliver_events]
  | cons e evs ih =>
    intro p
    simp [deliver_events, ih, Processor.process_event]

/-- C14: for a track with an empty chain and keyboard-family events passed to
`process_event` that fit the event buffer, one `render` hands each of them
upstream once, in the order received and after those already queued, as
`forwarded_event` of the event, which has the id of the track as processor id
and the type, sample offset, note, velocity and MIDI data of the event; the
event buffer is empty afterwards. -/
theorem render_forwards_queued_events (capacity : Nat) (PAN : ℚ) (t : Track) (h : Heap)
    (evs : List RtEvent) (hempty : t.processors = [])
    (hk : ∀ e ∈ evs, keyboard_family e)
    (hfit : t.event_buffer.length + evs.length ≤ capacity) :
    (render capacity PAN (evs.foldl (Track.process_event capacity) t) h).1.output_events =
      t.output_events ++ (t.event_buffer ++ evs).map (forwarded_event t) ∧
    (render capacity PAN (evs.foldl (Track.process_event capacity) t) h).1.event_buffer = [] ∧
    (∀ e ∈ evs, (forwarded_event t e).type = e.type ∧
      (forwarded_event t e).processor_id = t.id ∧
      (forwarded_event t e).sample_offset = e.sample_offset ∧
      (forwarded_event t e).note = e.note ∧
      (forwarded_event t e).velocity = e.velocity ∧
      (forwarded_event t e).midi_data = e.midi_data) := by
  rw [queue_all capacity evs t hk hfit]
  refine ⟨?_, ?_, fun e he => forwarded_event_keyboard t e (hk e he)⟩
  · simp only [render]
    rw [process_audio_empty capacity { t with event_buffer := t.event_buffer ++ evs } h _ _
      hempty]
    rfl
  · simp only [render]
    rw [process_audio_empty capacity { t with event_buffer := t.event_buffer ++ evs } h _ _
      hempty]

/-- C13 (as stated, refuted): a `PARAMETER_CHANGE` event is not of the keyboard
family, and `process_event` hands nothing to the event output of the track:
its record of forwarded events stays empty instead of holding the event. -/
theorem process_event_forwards_nothing :
    ¬ keyboard_family parameter_change ∧
    (empty_track.process_event 8 parameter_change).output_events = [] ∧
    (empty_track.process_event 8 parameter_change).output_events ≠
      empty_track.output_events ++ [parameter_change] := by
  decide

/-- C13 (amended): for every event that is not of the keyboard family
`process_event` leaves the track as it was: the event buffer is unchanged and
nothing is forwarded upstream; it is `send_event` that forwards such an event
upstream unchanged and leaves the event buffer unchanged. -/
theorem process_event_drops_other_events (capacity : Nat) (t : Track) (e : RtEvent)
    (hk : ¬ keyboard_family e) :
    t.process_event capacity e = t ∧
    (t.send_event capacity e).output_events = t.output_events ++ [e] ∧
    (t.send_event capacity e).event_buffer = t.event_buffer := by
  refine ⟨process_event_other capacity t e hk, ?_, ?_⟩
  · rw [send_event_other capacity t e hk]; rfl
  · rw [send_event_other capacity t e hk]; rfl

theorem step_heap (capacity : Nat) (inp : ChunkSampleBuffer)
    (st : Track × Heap × ChunkSampleBuffer) (p : Ptr) :
    (process_audio_step capacity inp st p).2.1 =
      st.2.1.set p (after_block (st.2.1 p) st.1.event_buffer 1) := by
  simp only [process_audio_step, deliver_events_eq, Processor.record_audio_call, after_block]
  funext q
  by_cases hq : q = p
  · subst hq; simp [Heap.set]
  · simp [Heap.set, hq]

theorem fold_grows (capacity : Nat) (inp : ChunkSampleBuffer) : ∀ (ps : List Ptr)
    (st : Track × Heap × ChunkSampleBuffer) (q : Ptr),
    ∃ extra, ((ps.foldl (process_audio_step capacity inp) st).2.1 q).received_events =
      (st.2.1 q).received_events ++ extra ∧ (q ∉ ps → extra = []) := by
  intro ps
  induction ps with
  | nil => intro st q; exact ⟨[], by simp, fun _ => rfl⟩
  | cons p ps ih =>
    intro st q
    obtain ⟨extra, he, hnot⟩ := ih (process_audio_step capacity inp st p) q
    rw [List.foldl_cons, he, step_heap]
    by_cases hq : q = p
    · subst hq
      refine ⟨st.1.event_buffer ++ extra, by simp [Heap.set, after_block], fun hn => ?_⟩
      exact absurd (List.mem_cons_self _ _) hn
    · refine ⟨extra, by simp [Heap.set, hq], fun hn => hnot fun hm => hn ?_⟩
      exact List.mem_cons_of_mem _ hm

/-- C15 (as stated, refuted): two note events are passed to `process_event`, sample
offset 5 first and sample offset 3 second; in the following `process_audio`
call the processor of the chain observes them in that order, offsets 5 then 3,
which is not non-decreasing. -/
theorem process_audio_delivers_unsorted :
    queued_track.processors = [1] ∧
    queued_track.event_buffer.map RtEvent.sample_offset = [5, 3] ∧
    ((process_audio 8 queued_track one_processor.2 [[1, 1], [1, 1]] [[0, 0], [0, 0]]).2.1
      1).received_events.map RtEvent.sample_offset = [5, 3] ∧
    ¬ List.Pairwise (fun a b : Int => a ≤ b)
      (((process_audio 8 queued_track one_processor.2 [[1, 1], [1, 1]] [[0, 0], [0, 0]]).2.1
        1).received_events.map RtEvent.sample_offset) := by
  decide!

/-- C15 (amended): keyboard-family events passed to `process_event` that fit the
event buffer are queued in the order received, and in the following
`process_audio` call the first processor of the chain observes the queue in
that order, whatever the sample offsets; anything it observes later in the
call comes after them, and it observes nothing more when it fills no other
slot of the chain. -/
theorem first_processor_receives_in_queue_order (capacity : Nat) (t : Track) (h : Heap)
    (inp out : ChunkSampleBuffer) (evs : List RtEvent) (first : Ptr) (rest : List Ptr)
    (hchain : t.processors = first :: rest)
    (hk : ∀ e ∈ evs, keyboard_family e)
    (hfit : t.event_buffer.length + evs.length ≤ capacity) :
    (evs.foldl (Track.process_event capacity) t).event_buffer = t.event_buffer ++ evs ∧
    ∃ extra,
      ((process_audio capacity (evs.foldl (Track.process_event capacity) t) h inp out).2.1
        first).received_events =
        (h first).received_events ++ (t.event_buffer ++ evs) ++ extra ∧
      (first ∉ rest → extra = []) := by
  rw [queue_all capacity evs t hk hfit]
  refine ⟨rfl, ?_⟩
  obtain ⟨extra, he, hnot⟩ := fold_grows capacity inp rest
    (process_audio_step capacity inp
      ({ t with event_buffer := t.event_buffer ++ evs }, h, out) first) first
  refine ⟨extra, ?_, hnot⟩
  have hheap : (process_audio capacity { t with event_buffer := t.event_buffer ++ evs }
      h inp out).2.1 =
      (rest.foldl (process_audio_step capacity inp)
        (process_audio_step capacity inp
          ({ t with event_buffer := t.event_buffer ++ evs }, h, out) first)).2.1 := by
    simp only [process_audio, hchain, List.foldl_cons]
  rw [hheap, he, step_heap]
  simp [Heap.set, after_block]

theorem after_block_none (p : Processor) : after_block p [] 0 = p := by
  simp [after_block]

theorem after_block_more (p : Processor) (n : Nat) :
    after_block (after_block p [] 1) [] n = after_block p [] (n + 1) := by
  simp [after_block, List.replicate_succ]

theorem silent_fold (capacity : Nat) (inp : ChunkSampleBuffer) : ∀ (ps : List Ptr)
    (t : Track) (h : Heap) (out : ChunkSampleBuffer),
    t.event_buffer = [] → (∀ p ∈ ps, ∀ b, (h p).audio_events b = []) →
    (ps.foldl (process_audio_step capacity inp) (t, h, out)).1 = t ∧
    (ps.foldl (process_audio_step capacity inp) (t, h, out)).2.1 =
      fun q => after_block (h q) [] (ps.count q) := by
  intro ps
  induction ps with
  | nil =>
    intro t h out _ _
    exact ⟨rfl, by funext q; simp [after_block_none]⟩
  | cons p ps ih =>
    intro t h out hb hs
    have hstep : process_audio_step capacity inp (t, h, out) p =
        (t, h.set p (after_block (h p) [] 1),
          (process_audio_step capacity inp (t, h, out) p).2.2) := by
      refine Prod.ext ?_ (Prod.ext ?_ rfl)
      · simp only [process_audio_step, deliver_events_eq, hb, List.append_nil, Heap.set,
          if_true, hs p (List.mem_cons_self _ _), List.foldl_nil]
        cases t
        simp_all
      · rw [step_heap]
        simp only [hb]
    have hs2 : ∀ q ∈ ps, ∀ b, ((h.set p (after_block (h p) [] 1)) q).audio_events b = [] := by
      intro q hq b
      by_cases hqp : q = p
      · subst hqp
        simp only [Heap.set, if_true, after_block]
        exact hs q (List.mem_cons_self _ _) b
      · simp only [Heap.set, hqp, if_false]
        exact hs q (List.mem_cons_of_mem _ hq) b
    have hih := ih t (h.set p (after_block (h p) [] 1))
      (process_audio_step capacity inp (t, h, out) p).2.2 hb hs2
    rw [List.foldl_cons, hstep]
    refine ⟨hih.1, ?_⟩
    rw [hih.2]
    funext q
    by_cases hqp : q = p
    · subst hqp
      simp only [Heap.set, if_true, List.count_cons_self]
      exact after_block_more (h q) (ps.count q)
    · have hc : (p :: ps).count q = ps.count q := List.count_cons_of_ne hqp ps
      simp only [Heap.set, hqp, if_false, hc]

/-- C18: on a non-empty chain in which no processor publishes events, the loop
iteration of the first processor passes it every queued event in queue order
and then calls its `process_audio`: the call is recorded with the queued
events already received. When `process_audio` returns, the first processor has
observed exactly the queued events, in the order queued, and each of its audio
calls of the block (one for every slot it fills, at least one) was made after
it had received them all; every other processor has received no event and is
as it was but for the record of its audio calls; nothing was handed upstream
and the event buffer is empty. -/
theorem silent_chain_delivers_to_first (capacity : Nat) (t : Track) (h : Heap)
    (inp out : ChunkSampleBuffer) (first : Ptr) (rest : List Ptr)
    (hchain : t.processors = first :: rest)
    (hsilent : ∀ p ∈ t.processors, ∀ b, (h p).audio_events b = []) :
    (process_audio_step capacity inp (t, h, out) first).2.1 first =
      after_block (h first) t.event_buffer 1 ∧
    ((process_audio capacity t h inp out).2.1 first).received_events =
      (h first).received_events ++ t.event_buffer ∧
    ((process_audio capacity t h inp out).2.1 first).audio_calls =
      (h first).audio_calls ++
        List.replicate (t.processors.count first)
          ((h first).received_events ++ t.event_buffer) ∧
    1 ≤ t.processors.count first ∧
    (process_audio capacity t h inp out).2.1 first =
      after_block (h first) t.event_buffer (t.processors.count first) ∧
    (∀ q, q ≠ first →
      ((process_audio capacity t h inp out).2.1 q).received_events = (h q).received_events ∧
      ((process_audio capacity t h inp out).2.1 q).audio_calls =
        (h q).audio_calls ++ List.replicate (t.processors.count q) (h q).received_events ∧
      (process_audio capacity t h inp out).2.1 q =
        after_block (h q) [] (t.processors.count q)) ∧
    (process_audio capacity t h inp out).1.output_events = t.output_events ∧
    (process_audio capacity t h inp out).1.event_buffer = [] := by
  have hs1 : (h first).audio_events = fun _ => [] := by
    funext b; exact hsilent first (by simp [hchain]) b
  have hstep : process_audio_step capacity inp (t, h, out) first =
      ({ t with event_buffer := [] },
        h.set first (after_block (h first) t.event_buffer 1),
        (process_audio_step capacity inp (t, h, out) first).2.2) := by
    refine Prod.ext ?_ (Prod.ext ?_ rfl)
    · simp only [process_audio_step, deliver_events_eq, Heap.set, if_true, hs1,
        List.foldl_nil]
    · rw [step_heap]
  have hrest := silent_fold capacity inp rest { t with event_buffer := [] }
    (h.set first (after_block (h first) t.event_buffer 1))
    (process_audio_step capacity inp (t, h, out) first).2.2 rfl
    (by
      intro p hp b
      by_cases hpf : p = first
      · subst hpf; simp [Heap.set, after_block, hs1]
      · simp only [Heap.set, hpf, if_false]
        exact hsilent p (by simp [hchain, hp]) b)
  have hfold : t.processors.foldl (process_audio_step capacity inp) (t, h, out) =
      rest.foldl (process_audio_step capacity inp)
        ({ t with event_buffer := [] },
          h.set first (after_block (h first) t.event_buffer 1),
          (process_audio_step capacity inp (t, h, out) first).2.2) := by
    have hf : t.processors.foldl (process_audio_step capacity inp) (t, h, out) =
        rest.foldl (process_audio_step capacity inp)
          (process_audio_step capacity inp (t, h, out) first) := by
      rw [hchain]; rfl
    rw [hf]
    exact congrArg (fun s => rest.foldl (process_audio_step capacity inp) s) hstep
  have hheap : (process_audio capacity t h inp out).2.1 =
      fun q => after_block ((h.set first (after_block (h first) t.event_buffer 1)) q) []
        (rest.count q) := by
    simp only [process_audio, hfold, hrest.2]
  have hfirst : (process_audio capacity t h inp out).2.1 first =
      after_block (h first) t.event_buffer (t.processors.count first) := by
    rw [hheap, hchain]
    simp [Heap.set, after_block, List.replicate_succ]
  have hother : ∀ q, q ≠ first → (process_audio capacity t h inp out).2.1 q =
      after_block (h q) [] (t.processors.count q) := by
    intro q hq
    have hc : (first :: rest).count q = rest.count q :=
      List.count_cons_of_ne hq rest
    rw [hheap, hchain, hc]
    simp only [Heap.set, hq, if_false]
  refine ⟨?_, ?_, ?_, ?_, hfirst, ?_, ?_, ?_⟩
  · rw [step_heap]; simp [Heap.set]
  · rw [hfirst]; rfl
  · rw [hfirst]; rfl
  · rw [hchain]; simp
  · intro q hq
    refine ⟨?_, ?_, hother q hq⟩
    · rw [hother q hq]; simp [after_block]
    · rw [hother q hq]; simp [after_block]
  · simp only [process_audio, hfold, hrest.1, List.foldl_nil]
  · simp only [process_audio, hfold, hrest.1, List.foldl_nil]

/-- C13 (witness): the `PARAMETER_CHANGE` event on a fresh track. -/
theorem process_event_drops_other_events_witness :
    ¬ keyboard_family parameter_change ∧
    empty_track.process_event 8 parameter_change = empty_track ∧
    (empty_track.send_event 8 parameter_change).output_events =
      empty_track.output_events ++ [parameter_change] ∧
    (empty_track.send_event 8 parameter_change).event_buffer = empty_track.event_buffer :=
  ⟨by decide, process_event_drops_other_events 8 empty_track parameter_change (by decide)⟩

/-- C14 (witness): scenario S5 with two note events on a fresh track with id 100. -/
theorem render_forwards_queued_events_witness :
    (render 8 (293 / 1000)
      ([note_late, note_early].foldl (Track.process_event 8) empty_track)
      doubling_heap).1.output_events =
      [RtEvent.make_note_on_event 100 5 60 1, RtEvent.make_note_on_event 100 3 62 1] ∧
    (render 8 (293 / 1000)
      ([note_late, note_early].foldl (Track.process_event 8) empty_track)
      doubling_heap).1.event_buffer = [] :=
  ⟨(render_forwards_queued_events 8 (293 / 1000) empty_track doubling_heap
      [note_late, note_early] rfl (by decide) (by decide)).1,
    (render_forwards_queued_events 8 (293 / 1000) empty_track doubling_heap
      [note_late, note_early] rfl (by decide) (by decide)).2.1⟩

/-- C15 (witness): the two note events on the track that holds the processor at
address 1: the processor observes offset 5 first, then offset 3. -/
theorem first_processor_receives_in_queue_order_witness :
    ([note_late, note_early].foldl (Track.process_event 8) one_processor.1).event_buffer =
      one_processor.1.event_buffer ++ [note_late, note_early] ∧
    ((process_audio 8 ([note_late, note_early].foldl (Track.process_event 8) one_processor.1)
      one_processor.2 [[1, 1], [1, 1]] [[0, 0], [0, 0]]).2.1 1).received_events =
      (one_processor.2 1).received_events ++
        (one_processor.1.event_buffer ++ [note_late, note_early]) :=
  ⟨(first_processor_receives_in_queue_order 8 one_processor.1 one_processor.2
      [[1, 1], [1, 1]] [[0, 0], [0, 0]] [note_late, note_early] 1 [] (by decide)
      (by decide) (by decide)).1,
    Exists.elim (first_processor_receives_in_queue_order 8 one_processor.1 one_processor.2
      [[1, 1], [1, 1]] [[0, 0], [0, 0]] [note_late, note_early] 1 [] (by decide)
      (by decide) (by decide)).2
      (fun extra hx => by
        have he := hx.2 (List.not_mem_nil 1)
        rw [he, List.append_nil] at hx
        exact hx.1)⟩

theorem queued_track_silent : ∀ p ∈ queued_track.processors, ∀ b : ChunkSampleBuffer,
    (one_processor.2 p).audio_events b = [] := by
  intro p hp b
  have hps : queued_track.processors = [1] := by decide
  rw [hps, List.mem_singleton] at hp
  subst hp
  rfl

/-- C18 (witness): the queued note events on the track that holds the one
processor at address 1, which publishes no events: the processor has observed
offset 5 then offset 3, its one audio call was made with both already
received, the processor at address 2 has received nothing, nothing went
upstream and the queue is empty. -/
theorem silent_chain_delivers_to_first_witness :
    (process_audio_step 8 [[1, 1], [1, 1]] (queued_track, one_processor.2, [[0, 0], [0, 0]])
      1).2.1 1 = after_block (one_processor.2 1) queued_track.event_buffer 1 ∧
    ((process_audio 8 queued_track one_processor.2 [[1, 1], [1, 1]] [[0, 0], [0, 0]]).2.1
      1).received_events = (one_processor.2 1).received_events ++ queued_track.event_buffer ∧
    ((process_audio 8 queued_track one_processor.2 [[1, 1], [1, 1]] [[0, 0], [0, 0]]).2.1
      1).audio_calls = (one_processor.2 1).audio_calls ++
        List.replicate (queued_track.processors.count 1)
          ((one_processor.2 1).received_events ++ queued_track.event_buffer) ∧
    ((process_audio 8 queued_track one_processor.2 [[1, 1], [1, 1]] [[0, 0], [0, 0]]).2.1
      2).received_events = (one_processor.2 2).received_events ∧
    (process_audio 8 queued_track one_processor.2 [[1, 1], [1, 1]]
      [[0, 0], [0, 0]]).1.output_events = queued_track.output_events ∧
    (process_audio 8 queued_track one_processor.2 [[1, 1], [1, 1]]
      [[0, 0], [0, 0]]).1.event_buffer = [] ∧
    ((process_audio 8 queued_track one_processor.2 [[1, 1], [1, 1]] [[0, 0], [0, 0]]).2.1
      1).audio_calls = [[note_late, note_early]] :=
  ⟨(silent_chain_delivers_to_first 8 queued_track one_processor.2 [[1, 1], [1, 1]]
      [[0, 0], [0, 0]] 1 [] (by decide) queued_track_silent).1,
    (silent_chain_delivers_to_first 8 queued_track one_processor.2 [[1, 1], [1, 1]]
      [[0, 0], [0, 0]] 1 [] (by decide) queued_track_silent).2.1,
    (silent_chain_delivers_to_first 8 queued_track one_processor.2 [[1, 1], [1, 1]]
      [[0, 0], [0, 0]] 1 [] (by decide) queued_track_silent).2.2.1,
    ((silent_chain_delivers_to_first 8 queued_track one_processor.2 [[1, 1], [1, 1]]
      [[0, 0], [0, 0]] 1 [] (by decide) queued_track_silent).2.2.2.2.2.1 2 (by decide)).1,
    (silent_chain_delivers_to_first 8 queued_track one_processor.2 [[1, 1], [1, 1]]
      [[0, 0], [0, 0]] 1 [] (by decide) queued_track_silent).2.2.2.2.2.2.1,
    (silent_chain_delivers_to_first 8 queued_track one_processor.2 [[1, 1], [1, 1]]
      [[0, 0], [0, 0]] 1 [] (by decide) queued_track_silent).2.2.2.2.2.2.2,
    (silent_chain_delivers_to_first 8 queued_track one_processor.2 [[1, 1], [1, 1]]
      [[0, 0], [0, 0]] 1 [] (by decide) queued_track_silent).2.2.1.trans (by decide!)⟩

/-! ## C16 and C17: construction -/

/-- C16 (as stated, refuted): the multibus constructor called with no input bus
and no output bus builds buffers of 0 channels, fewer than 2. -/
theorem multibus_track_without_busses :
    (Track.multibus_track 100 100 64 0 0).input_buffer.length = 0 ∧
    (Track.multibus_track 100 100 64 0 0).output_buffer.length = 0 ∧
    ¬ 2 ≤ (Track.multibus_track 100 100 64 0 0).input_buffer.length := by
  decide

/-- C16 (amended): a track built by `Track(int channels)` has exactly
`max(channels, 2)` channels in its input and in its output buffer, never fewer
than 2, and one input and one output bus; built with 1 or 2 channels that is
exactly `max(input_busses, output_busses) * 2 = 2` channels; a multibus track
with at least one bus, whose channel count fits an `int`, has exactly
`max(input_busses, output_busses) * 2` channels in each buffer, which is at
least 2. -/
theorem track_buffer_channels (self : Ptr) (id : ObjectId) (frames : Nat) :
    (∀ channels : Int,
      ((Track.simple self id frames channels).input_buffer.length : Int) = max channels 2 ∧
      ((Track.simple self id frames channels).output_buffer.length : Int) = max channels 2 ∧
      (Track.simple self id frames channels).input_busses = 1 ∧
      (Track.simple self id frames channels).output_busses = 1 ∧
      2 ≤ (Track.simple self id frames channels).input_buffer.length ∧
      2 ≤ (Track.simple self id frames channels).output_buffer.length) ∧
    (∀ channels : Int, channels = 1 ∨ channels = 2 →
      ((Track.simple self id frames channels).input_buffer.length : Int) =
        max (Track.simple self id frames channels).input_busses
          (Track.simple self id frames channels).output_busses * 2 ∧
      ((Track.simple self id frames channels).output_buffer.length : Int) =
        max (Track.simple self id frames channels).input_busses
          (Track.simple self id frames channels).output_busses * 2) ∧
    (∀ input_busses output_busses : Int, 1 ≤ max input_busses output_busses →
      max input_busses output_busses * 2 < 2 ^ 31 →
      ((Track.multibus_track self id frames input_busses output_busses).input_buffer.length
          : Int) = max input_busses output_busses * 2 ∧
      ((Track.multibus_track self id frames input_busses output_busses).output_buffer.length
          : Int) = max input_busses output_busses * 2 ∧
      (Track.multibus_track self id frames input_busses output_busses).input_busses =
        input_busses ∧
      (Track.multibus_track self id frames input_busses output_busses).output_busses =
        output_busses ∧
      2 ≤ (Track.multibus_track self id frames input_busses output_busses).input_buffer.length ∧
      2 ≤ (Track.multibus_track self id frames input_busses
        output_busses).output_buffer.length) := by
  refine ⟨?_, ?_, ?_⟩
  · intro channels
    have hm : (2 : Int) ≤ max channels 2 := le_max_right _ _
    have h2 : 2 ≤ (max channels 2).toNat := by omega
    have hx : ((max channels 2).toNat : Int) = max channels 2 :=
      Int.toNat_of_nonneg (by omega)
    refine ⟨?_, ?_, rfl, rfl, ?_, ?_⟩ <;>
      simp only [Track.simple, common_init, silent_buffer, List.length_replicate]
    · exact hx
    · exact hx
    · exact h2
    · exact h2
  · rintro channels (rfl | rfl) <;>
      simp [Track.simple, common_init, silent_buffer]
  · intro ib ob h1 _
    have hn : 0 ≤ max ib ob * 2 := by omega
    have h2 : 2 ≤ (max ib ob * 2).toNat := by omega
    refine ⟨?_, ?_, rfl, rfl, ?_, ?_⟩ <;>
      simp only [Track.multibus_track, common_init, silent_buffer, List.length_replicate]
    · exact Int.toNat_of_nonneg hn
    · exact Int.toNat_of_nonneg hn
    · exact h2
    · exact h2

/-- C16 (witness): a simple track of 3 channels, a mono track and a track of 2
input busses and 3 output busses. -/
theorem track_buffer_channels_witness :
    ((Track.simple 100 100 64 3).input_buffer.length : Int) = max 3 2 ∧
    ((Track.simple 100 100 64 3).output_buffer.length : Int) = max 3 2 ∧
    ((1 : Int) = 1 ∨ (1 : Int) = 2) ∧
    ((Track.simple 100 100 64 1).input_buffer.length : Int) =
      max (Track.simple 100 100 64 1).input_busses
        (Track.simple 100 100 64 1).output_busses * 2 ∧
    (1 ≤ max (2 : Int) 3 ∧ max (2 : Int) 3 * 2 < 2 ^ 31) ∧
    ((Track.multibus_track 100 100 64 2 3).input_buffer.length : Int) = max 2 3 * 2 ∧
    2 ≤ (Track.multibus_track 100 100 64 2 3).output_buffer.length :=
  ⟨((track_buffer_channels 100 100 64).1 3).1,
    ((track_buffer_channels 100 100 64).1 3).2.1,
    Or.inl rfl,
    ((track_buffer_channels 100 100 64).2.1 1 (Or.inl rfl)).1,
    ⟨by decide, by decide⟩,
    ((track_buffer_channels 100 100 64).2.2 2 3 (by decide) (by decide)).1,
    ((track_buffer_channels 100 100 64).2.2 2 3 (by decide) (by decide)).2.2.2.2.2⟩

/-- C17: a `KeyboardEvent` built from an event type, a processor id, a sample
offset, a note and a velocity returns exactly those values from `type`,
`processor_id`, `sample_offset`, `note` and `velocity`; in particular for the
values of the unit test, `NOTE_ON`, "processor_id", 25, 60 and 1.0. -/
theorem keyboard_event_creation (type : EventType) (processor_id : String)
    (sample_offset note : Int) (velocity : ℚ) :
    (KeyboardEvent.create type processor_id sample_offset note velocity).type = type ∧
    (KeyboardEvent.create type processor_id sample_offset note velocity).processor_id =
      processor_id ∧
    (KeyboardEvent.create type processor_id sample_offset note velocity).sample_offset =
      sample_offset ∧
    (KeyboardEvent.create type processor_id sample_offset note velocity).note = note ∧
    (KeyboardEvent.create type processor_id sample_offset note velocity).velocity = velocity ∧
    (KeyboardEvent.create RtEventType.NOTE_ON "processor_id" 25 60 1).type =
      RtEventType.NOTE_ON ∧
    (KeyboardEvent.create RtEventType.NOTE_ON "processor_id" 25 60 1).processor_id =
      "processor_id" ∧
    (KeyboardEvent.create RtEventType.NOTE_ON "processor_id" 25 60 1).sample_offset = 25 ∧
    (KeyboardEvent.create RtEventType.NOTE_ON "processor_id" 25 60 1).note = 60 ∧
    (KeyboardEvent.create RtEventType.NOTE_ON "processor_id" 25 60 1).velocity = 1 :=
  ⟨rfl, rfl, rfl, rfl, rfl, rfl, rfl, rfl, rfl, rfl⟩

/-! ## C19 and C20: renegotiation and `remove` -/

theorem assign_all_last_write : ∀ (ps : List Ptr) (vs : List (Int × Int)) (h : Heap) (q : Ptr),
    assign_all h ps vs q =
      match last_write ps vs q with
      | some w => ((h q).set_input_channels w.1).set_output_channels w.2
      | none => h q := by
  intro ps
  induction ps with
  | nil => intro vs h q; cases vs <;> rfl
  | cons p ps ih =>
    intro vs h q
    cases vs with
    | nil => rfl
    | cons v vs =>
      simp only [assign_all, last_write]
      rw [ih vs (assign h p v) q]
      cases hl : last_write ps vs q with
      | some w =>
        by_cases hq : q = p
        · subst hq
          simp [assign, Heap.set, Processor.set_input_channels, Processor.set_output_channels]
        · simp [assign, Heap.set, hq]
      | none =>
        by_cases hq : q = p
        · subst hq; simp [assign, Heap.set]
        · simp [assign, Heap.set, hq]

theorem assign_all_idem (ps : List Ptr) (vs : List (Int × Int)) (h : Heap) :
    assign_all (assign_all h ps vs) ps vs = assign_all h ps vs := by
  funext q
  rw [assign_all_last_write ps vs (assign_all h ps vs) q, assign_all_last_write ps vs h q]
  cases last_write ps vs q with
  | some w => simp [Processor.set_input_channels, Processor.set_output_channels]
  | none => rfl

theorem chain_maxima_assign_all (ps : List Ptr) (vs : List (Int × Int)) (h : Heap)
    (qs : List Ptr) : chain_maxima (assign_all h ps vs) qs = chain_maxima h qs := by
  simp [chain_maxima, assign_all_max]

theorem loop_result (t : Track) (h : Heap) :
    ((List.range t.processors.length).foldl (update_channel_config_body t)
      (h, t.current_input_channels)).1 = assign_all h t.processors (negotiated t h) := by
  have hloop := loop_eq t t.processors [] h t.current_input_channels (by simp)
  simp only [List.length_nil, Nat.add_zero, List.map_id_fun, id] at hloop
  simpa [negotiated] using hloop

/-- C19: `update_channel_config` is idempotent: a second run leaves every processor
object, so every input and output channel count, as the first run left it; and
the clamp that follows the loop never changes the output channel count the
loop gave the last processor. -/
theorem update_channel_config_idempotent (t : Track) (h : Heap) :
    update_channel_config t (update_channel_config t h) = update_channel_config t h ∧
    (∀ p, (update_channel_config t (update_channel_config t h) p).input_channels =
        (update_channel_config t h p).input_channels ∧
      (update_channel_config t (update_channel_config t h) p).output_channels =
        (update_channel_config t h p).output_channels) ∧
    (∀ last, t.processors.getLast? = some last →
      min t.current_output_channels
        (((List.range t.processors.length).foldl (update_channel_config_body t)
          (h, t.current_input_channels)).1 last).output_channels =
      (((List.range t.processors.length).foldl (update_channel_config_body t)
          (h, t.current_input_channels)).1 last).output_channels) := by
  have hidem : update_channel_config t (update_channel_config t h) =
      update_channel_config t h := by
    rw [update_channel_config_eq t (update_channel_config t h), update_channel_config_eq t h]
    have hn : negotiated t (assign_all h t.processors (negotiated t h)) = negotiated t h := by
      simp only [negotiated, chain_maxima_assign_all]
    rw [hn, assign_all_idem]
  refine ⟨hidem, fun p => by rw [hidem]; exact ⟨rfl, rfl⟩, ?_⟩
  intro last hl
  rw [loop_result]
  exact min_eq_right (assign_all_last_out t.max_output_channels t.current_output_channels
    t.processors h t.current_input_channels last hl)

theorem remove_find_none (h : Heap) (x : ObjectId) : ∀ (l : List Ptr) (k : Nat),
    remove_find h x l k = none ↔ ∀ p ∈ l, (h p).id ≠ x := by
  intro l
  induction l with
  | nil => intro k; simp [remove_find]
  | cons p l ih =>
    intro k
    by_cases hp : (h p).id = x
    · simp [remove_find, hp]
    · simp [remove_find, hp, ih (k + 1)]

theorem remove_find_some (h : Heap) (x : ObjectId) : ∀ (l : List Ptr) (k n : Nat),
    remove_find h x l k = some n →
    ∃ j, n = k + j ∧ j < l.length ∧ (h (l.getD j 0)).id = x ∧
      ∀ i, i < j → (h (l.getD i 0)).id ≠ x := by
  intro l
  induction l with
  | nil => intro k n hf; simp [remove_find] at hf
  | cons p l ih =>
    intro k n hf
    by_cases hp : (h p).id = x
    · simp only [remove_find, hp, if_true, Option.some.injEq] at hf
      exact ⟨0, by omega, by simp, by simpa using hp, fun i hi => absurd hi (Nat.not_lt_zero i)⟩
    · simp only [remove_find, hp, if_false] at hf
      obtain ⟨j, hn, hj, hid, hbefore⟩ := ih (k + 1) n hf
      refine ⟨j + 1, by omega, by simpa using hj, by simpa using hid, ?_⟩
      intro i hi
      cases i with
      | zero => simpa using hp
      | succ i => simpa using hbefore i (by omega)

/-- Clearing or setting an event output changes no declared maximum, so the
recurrence gives the same pairs. -/
theorem negotiated_set_event_output (t : Track) (h : Heap) (p : Ptr) (sink : Option Ptr) :
    negotiated t (h.set p ((h p).set_event_output sink)) = negotiated t h := by
  have hm : chain_maxima (h.set p ((h p).set_event_output sink)) t.processors =
      chain_maxima h t.processors := by
    apply List.map_congr_left
    intro a _
    by_cases ha : a = p
    · subst ha; simp [Heap.set, Processor.set_event_output]
    · simp [Heap.set, ha]
  simp only [negotiated, hm]

theorem update_channel_config_after_event_output (t : Track) (h : Heap) (p : Ptr)
    (sink : Option Ptr) :
    update_channel_config t (h.set p ((h p).set_event_output sink)) =
      assign_all (h.set p ((h p).set_event_output sink)) t.processors (negotiated t h) := by
  rw [update_channel_config_eq, negotiated_set_event_output]

theorem update_channel_config_within (t : Track) (h : Heap) :
    channels_within_maxima (update_channel_config t h) t.processors := by
  rw [update_channel_config_eq]
  intro p hp
  have hb := assign_all_bounds t.processors (negotiated t h) h
    (spec_channels_bounds _ _ h t.processors _) p hp
  rw [(assign_all_max t.processors (negotiated t h) h p).1,
    (assign_all_max t.processors (negotiated t h) h p).2]
  exact hb

theorem update_channel_config_slot (t : Track) (h : Heap) (hnd : t.processors.Nodup)
    (k : Nat) (hk : k < t.processors.length) :
    (update_channel_config t h (t.processors.getD k 0)).input_channels =
      ((negotiated t h).getD k (0, 0)).1 ∧
    (update_channel_config t h (t.processors.getD k 0)).output_channels =
      ((negotiated t h).getD k (0, 0)).2 := by
  rw [update_channel_config_eq]
  exact assign_all_nodup_get t.processors (negotiated t h) h k hnd (negotiated_length t h) hk

theorem update_channel_config_linked (t : Track) (h : Heap) (hnd : t.processors.Nodup) :
    chain_linked (update_channel_config t h) t.processors := by
  intro i hi
  rw [(update_channel_config_slot t h hnd (i + 1) hi).1,
    (update_channel_config_slot t h hnd i (by omega)).2]
  exact spec_channels_link _ _ _ _ i (by simpa [chain_maxima] using hi)

/-- C20: `remove` returns true exactly when some processor of the chain has the id;
when none has, track and processors are unchanged; when one has, the slot `i`
of the first such processor is erased from the chain, the other slots keep
their order, the event output of the removed processor is cleared and no other
event output changes, and the channel configuration is renegotiated for the
new chain: the processors hold the pairs the recurrence of the specification
gives the new chain, stored in chain order, so every remaining processor is
within its declared maxima and, when the remaining processors are pairwise
distinct, slot `k` holds the `k`-th pair and reads as many channels as its
predecessor writes. -/
theorem remove_first_match (t : Track) (h : Heap) (x : ObjectId) :
    ((remove t h x).1 = true ↔ ∃ p ∈ t.processors, (h p).id = x) ∧
    ((∀ p ∈ t.processors, (h p).id ≠ x) → remove t h x = (false, t, h)) ∧
    ((∃ p ∈ t.processors, (h p).id = x) →
      ∃ i, i < t.processors.length ∧ (h (t.processors.getD i 0)).id = x ∧
        (∀ j, j < i → (h (t.processors.getD j 0)).id ≠ x) ∧
        (remove t h x).2.1 = { t with processors := t.processors.eraseIdx i } ∧
        (remove t h x).2.1.processors.length + 1 = t.processors.length ∧
        List.Sublist (remove t h x).2.1.processors t.processors ∧
        ((remove t h x).2.2 (t.processors.getD i 0)).event_output = none ∧
        (∀ q, q ≠ t.processors.getD i 0 →
          ((remove t h x).2.2 q).event_output = (h q).event_output) ∧
        (remove t h x).2.2 = update_channel_config (remove t h x).2.1
          (h.set (t.processors.getD i 0)
            ((h (t.processors.getD i 0)).set_event_output none)) ∧
        (remove t h x).2.2 = assign_all
          (h.set (t.processors.getD i 0)
            ((h (t.processors.getD i 0)).set_event_output none))
          (t.processors.eraseIdx i) (negotiated (remove t h x).2.1 h) ∧
        channels_within_maxima (remove t h x).2.2 (remove t h x).2.1.processors ∧
        ((remove t h x).2.1.processors.Nodup →
          chain_linked (remove t h x).2.2 (remove t h x).2.1.processors ∧
          ∀ k, k < (remove t h x).2.1.processors.length →
            ((remove t h x).2.2 ((remove t h x).2.1.processors.getD k 0)).input_channels =
              ((negotiated (remove t h x).2.1 h).getD k (0, 0)).1 ∧
            ((remove t h x).2.2 ((remove t h x).2.1.processors.getD k 0)).output_channels =
              ((negotiated (remove t h x).2.1 h).getD k (0, 0)).2)) := by
  cases hf : remove_find h x t.processors 0 with
  | none =>
    have hall := (remove_find_none h x t.processors 0).mp hf
    have hrem : remove t h x = (false, t, h) := by simp [remove, hf]
    refine ⟨?_, fun _ => hrem, ?_⟩
    · rw [hrem]
      constructor
      · intro hc; cases hc
      · rintro ⟨p, hp, hid⟩; exact absurd hid (hall p hp)
    · rintro ⟨p, hp, hid⟩; exact absurd hid (hall p hp)
  | some n =>
    obtain ⟨j, hn, hj, hid, hbefore⟩ := remove_find_some h x t.processors 0 n hf
    have hnj : n = j := by omega
    subst hnj
    have hrem : remove t h x = (true, { t with processors := t.processors.eraseIdx n },
        update_channel_config { t with processors := t.processors.eraseIdx n }
          (h.set (t.processors.getD n 0)
            ((h (t.processors.getD n 0)).set_event_output none))) := by
      simp [remove, hf]
    have hex : ∃ p ∈ t.processors, (h p).id = x := by
      refine ⟨t.processors.getD n 0, ?_, hid⟩
      rw [List.getD_eq_getElem _ _ hj]
      exact List.getElem_mem _
    refine ⟨⟨fun _ => hex, fun _ => by rw [hrem]⟩, ?_, ?_⟩
    · intro hall
      obtain ⟨p, hp, hpid⟩ := hex
      exact absurd hpid (hall p hp)
    · intro _
      have hneg := negotiated_set_event_output
        { t with processors := t.processors.eraseIdx n } h (t.processors.getD n 0) none
      refine ⟨n, hj, hid, hbefore, by rw [hrem], ?_, ?_, ?_, ?_, by rw [hrem], ?_, ?_, ?_⟩
      · rw [hrem]
        simp only [List.length_eraseIdx, hj, if_true]
        omega
      · rw [hrem]; exact List.eraseIdx_sublist _ _
      · rw [hrem, update_channel_config_event_output]
        simp [Heap.set, Processor.set_event_output]
      · intro q hq
        rw [hrem, update_channel_config_event_output, Heap.set_other _ _ _ _ hq]
      · rw [hrem]
        exact update_channel_config_after_event_output
          { t with processors := t.processors.eraseIdx n } h (t.processors.getD n 0) none
      · rw [hrem]
        exact update_channel_config_within { t with processors := t.processors.eraseIdx n } _
      · rw [hrem]
        intro hnd
        refine ⟨update_channel_config_linked
          { t with processors := t.processors.eraseIdx n } _ hnd, ?_⟩
        intro k hk
        have hs := update_channel_config_slot
          { t with processors := t.processors.eraseIdx n }
          (h.set (t.processors.getD n 0)
            ((h (t.processors.getD n 0)).set_event_output none)) hnd k hk
        rw [hneg] at hs
        exact hs

/-- C19 (witness): the clamp on the chain of scenario S3, whose last processor is
at address 2. -/
theorem update_channel_config_idempotent_witness :
    s3_track.processors.getLast? = some 2 ∧
    min s3_track.current_output_channels
      (((List.range s3_track.processors.length).foldl (update_channel_config_body s3_track)
        (s3_heap, s3_track.current_input_channels)).1 2).output_channels =
    (((List.range s3_track.processors.length).foldl (update_channel_config_body s3_track)
        (s3_heap, s3_track.current_input_channels)).1 2).output_channels :=
  ⟨by decide, (update_channel_config_idempotent s3_track s3_heap).2.2 2 (by decide)⟩

/-- C20 (witness): on the chain of scenario S3, whose processors have their
address as id, `remove(7)` finds no processor and changes nothing, and
`remove(1)` returns true, leaves the chain `0, 2` and clears the event output
of the processor at address 1. On the negotiated 8-channel track with the same
chain, `A` writes 2 channels and `C` reads 2 while `B` sits between them, and
after `remove(1)` the renegotiation has `A` write 8 channels and `C` read 8. -/
theorem remove_first_match_witness :
    remove s3_track s3_heap 7 = (false, s3_track, s3_heap) ∧
    (remove s3_track s3_heap 1).1 = true ∧
    (remove s3_track s3_heap 1).2.1.processors = [0, 2] ∧
    ((remove s3_track s3_heap 1).2.2 1).event_output = none ∧
    ((wide_heap 0).output_channels = 2 ∧ (wide_heap 2).input_channels = 2) ∧
    ((remove wide_track wide_heap 1).2.2 0).output_channels = 8 ∧
    ((remove wide_track wide_heap 1).2.2 2).input_channels = 8 :=
  ⟨(remove_first_match s3_track s3_heap 7).2.1 (by decide),
    (remove_first_match s3_track s3_heap 1).1.mpr ⟨1, by decide, by decide⟩,
    Exists.elim ((remove_first_match s3_track s3_heap 1).2.2 ⟨1, by decide, by decide⟩)
      (fun i hx => by
        have hi : i = 1 := by
          have h3 : i < 3 := hx.1
          have hid := hx.2.1
          interval_cases i
          · exact absurd hid (by decide)
          · rfl
          · exact absurd hid (by decide)
        subst hi
        rw [hx.2.2.2.1]
        rfl),
    Exists.elim ((remove_first_match s3_track s3_heap 1).2.2 ⟨1, by decide, by decide⟩)
      (fun i hx => by
        have hi : i = 1 := by
          have h3 : i < 3 := hx.1
          have hid := hx.2.1
          interval_cases i
          · exact absurd hid (by decide)
          · rfl
          · exact absurd hid (by decide)
        subst hi
        exact hx.2.2.2.2.2.2.1),
    ⟨by decide!, by decide!⟩,
    Exists.elim ((remove_first_match wide_track wide_heap 1).2.2 ⟨1, by decide!, by decide!⟩)
      (fun i hx => by
        have hslot := ((hx.2.2.2.2.2.2.2.2.2.2.2 (by decide!)).2 0 (by decide!)).2
        have e1 : (remove wide_track wide_heap 1).2.1.processors.getD 0 0 = 0 := by decide!
        have e2 : ((negotiated (remove wide_track wide_heap 1).2.1 wide_heap).getD 0
            (0, 0)).2 = 8 := by decide!
        rw [e1, e2] at hslot
        exact hslot),
    Exists.elim ((remove_first_match wide_track wide_heap 1).2.2 ⟨1, by decide!, by decide!⟩)
      (fun i hx => by
        have hslot := ((hx.2.2.2.2.2.2.2.2.2.2.2 (by decide!)).2 1 (by decide!)).1
        have e1 : (remove wide_track wide_heap 1).2.1.processors.getD 1 0 = 2 := by decide!
        have e2 : ((negotiated (remove wide_track wide_heap 1).2.1 wide_heap).getD 1
            (0, 0)).1 = 8 := by decide!
        rw [e1, e2] at hslot
        exact hslot)⟩

/-! ## C21: the voices of the sample player -/

theorem for_first_hit {V : Type} (p : V → Bool) (f : V → V) : ∀ (l : List V) (i : Nat) (v : V),
    l[i]? = some v → p v = true → (∀ j w, j < i → l[j]? = some w → p w = false) →
    for_first p f l = (l.set i (f v), true) := by
  intro l
  induction l with
  | nil => intro i v hv; simp at hv
  | cons a l ih =>
    intro i v hv hp hbefore
    cases i with
    | zero =>
      have hav : a = v := by simpa using hv
      subst hav
      simp [for_first, hp]
    | succ i =>
      have ha : p a = false := hbefore 0 a (Nat.succ_pos i) (by simp)
      have hrest := ih i v (by simpa using hv) hp
        (fun j w hj hw => hbefore (j + 1) w (by omega) (by simpa using hw))
      simp [for_first, ha, hrest]

theorem for_first_miss {V : Type} (p : V → Bool) (f : V → V) : ∀ (l : List V),
    (∀ v ∈ l, p v = false) → for_first p f l = (l, false) := by
  intro l
  induction l with
  | nil => intro _; rfl
  | cons a l ih =>
    intro h
    have ha : p a = false := h a (List.mem_cons_self _ _)
    have hrest := ih (fun v hv => h v (List.mem_cons_of_mem _ hv))
    simp [for_first, ha, hrest]

/-- C21: for every state of the voices, a `NOTE_ON` event triggers `note_on` on the
first voice that is not active, if there is one; otherwise on the first voice
that is stopping, if there is one; otherwise on none. A `NOTE_OFF` event
triggers `note_off` on the first active voice whose current note is the note
of the event, if there is one, and on none otherwise. In each case every other
voice is as it was (the result is the list of voices with that one slot
replaced), and an event of any other type leaves all voices as they were. -/
theorem sample_player_triggers_one_voice {V : Type} (ops : VoiceOps V) (voices : List V)
    (event : KeyboardEvent) :
    (event.type = RtEventType.NOTE_ON →
      (∀ i v, voices[i]? = some v → ops.active v = false →
        (∀ j w, j < i → voices[j]? = some w → ops.active w = true) →
        sample_player_process_event ops voices event =
          voices.set i (ops.note_on v event.note event.velocity event.sample_offset)) ∧
      ((∀ v ∈ voices, ops.active v = true) →
        ∀ i v, voices[i]? = some v → ops.stopping v = true →
        (∀ j w, j < i → voices[j]? = some w → ops.stopping w = false) →
        sample_player_process_event ops voices event =
          voices.set i (ops.note_on v event.note event.velocity event.sample_offset)) ∧
      ((∀ v ∈ voices, ops.active v = true ∧ ops.stopping v = false) →
        sample_player_process_event ops voices event = voices)) ∧
    (event.type = RtEventType.NOTE_OFF →
      (∀ i v, voices[i]? = some v → ops.active v = true → ops.current_note v = event.note →
        (∀ j w, j < i → voices[j]? = some w →
          ¬ (ops.active w = true ∧ ops.current_note w = event.note)) →
        sample_player_process_event ops voices event =
          voices.set i (ops.note_off v event.velocity event.sample_offset)) ∧
      ((∀ v ∈ voices, ¬ (ops.active v = true ∧ ops.current_note v = event.note)) →
        sample_player_process_event ops voices event = voices)) ∧
    (event.type ≠ RtEventType.NOTE_ON → event.type ≠ RtEventType.NOTE_OFF →
      sample_player_process_event ops voices event = voices) := by
  refine ⟨fun hty => ⟨?_, ?_, ?_⟩, fun hty => ⟨?_, ?_⟩, ?_⟩
  · intro i v hv hina hbefore
    have hhit := for_first_hit (fun voice => !ops.active voice)
      (fun voice => ops.note_on voice event.note event.velocity event.sample_offset)
      voices i v hv (by simp [hina]) (fun j w hj hw => by simp [hbefore j w hj hw])
    simp only [sample_player_process_event, hty, hhit]
    rfl
  · intro hall i v hv hstop hbefore
    have hmiss := for_first_miss (fun voice => !ops.active voice)
      (fun voice => ops.note_on voice event.note event.velocity event.sample_offset)
      voices (fun w hw => by simp [hall w hw])
    have hhit := for_first_hit (fun voice => ops.stopping voice)
      (fun voice => ops.note_on voice event.note event.velocity event.sample_offset)
      voices i v hv hstop hbefore
    simp only [sample_player_process_event, hty, hmiss, hhit]
    rfl
  · intro hall
    have hmiss := for_first_miss (fun voice => !ops.active voice)
      (fun voice => ops.note_on voice event.note event.velocity event.sample_offset)
      voices (fun w hw => by simp [(hall w hw).1])
    have hmiss2 := for_first_miss (fun voice => ops.stopping voice)
      (fun voice => ops.note_on voice event.note event.velocity event.sample_offset)
      voices (fun w hw => (hall w hw).2)
    simp only [sample_player_process_event, hty, hmiss, hmiss2]
    rfl
  · intro i v hv hact hnote hbefore
    have hhit := for_first_hit
      (fun voice => ops.active voice && decide (ops.current_note voice = event.note))
      (fun voice => ops.note_off voice event.velocity event.sample_offset)
      voices i v hv (by simp [hact, hnote])
      (fun j w hj hw => by
        have := hbefore j w hj hw
        by_cases ha : ops.active w = true
        · have hn : ops.current_note w ≠ event.note := fun e => this ⟨ha, e⟩
          simp [hn]
        · simp [ha])
    simp only [sample_player_process_event, hty, hhit]
  · intro hall
    have hmiss := for_first_miss
      (fun voice => ops.active voice && decide (ops.current_note voice = event.note))
      (fun voice => ops.note_off voice event.velocity event.sample_offset)
      voices (fun w hw => by
        have := hall w hw
        by_cases ha : ops.active w = true
        · have hn : ops.current_note w ≠ event.note := fun e => this ⟨ha, e⟩
          simp [hn]
        · simp [ha])
    simp only [sample_player_process_event, hty, hmiss]
  · intro h1 h2
    unfold sample_player_process_event
    split
    · rename_i heq; exact absurd heq h1
    · rename_i heq; exact absurd heq h2
    · rfl

/-- C21 (witness): note 64 goes to the first voice that is not active; with all
voices active it goes to the first stopping voice; with all voices playing it
goes nowhere; the note-off for note 62 reaches the first active voice on note
62, past the inactive voice whose last note was 62, and no voice when none
plays it; an event of another type changes nothing. -/
theorem sample_player_triggers_one_voice_witness :
    sample_player_process_event example_voice_ops [playing 60, idle 0, idle 0] note_on_64 =
      [playing 60, idle 0, idle 0].set 1 (playing 64) ∧
    sample_player_process_event example_voice_ops [playing 60, releasing 62, releasing 65]
      note_on_64 = [playing 60, releasing 62, releasing 65].set 1 (playing 64) ∧
    sample_player_process_event example_voice_ops [playing 60, playing 62] note_on_64 =
      [playing 60, playing 62] ∧
    sample_player_process_event example_voice_ops [idle 62, playing 62, playing 62]
      note_off_62 = [idle 62, playing 62, playing 62].set 1 (releasing 62) ∧
    sample_player_process_event example_voice_ops [playing 60, playing 65] note_off_62 =
      [playing 60, playing 65] ∧
    sample_player_process_event example_voice_ops [playing 60, idle 0] other_event =
      [playing 60, idle 0] :=
  ⟨((sample_player_triggers_one_voice example_voice_ops [playing 60, idle 0, idle 0]
      note_on_64).1 rfl).1 1 (idle 0) rfl rfl
      (fun j w hj hw => by
        have h0 : j = 0 := by omega
        subst h0
        have hw2 : playing 60 = w := by simpa using hw
        subst hw2
        rfl),
    ((sample_player_triggers_one_voice example_voice_ops
      [playing 60, releasing 62, releasing 65] note_on_64).1 rfl).2.1 (by decide)
      1 (releasing 62) rfl rfl
      (fun j w hj hw => by
        have h0 : j = 0 := by omega
        subst h0
        have hw2 : playing 60 = w := by simpa using hw
        subst hw2
        rfl),
    ((sample_player_triggers_one_voice example_voice_ops [playing 60, playing 62]
      note_on_64).1 rfl).2.2 (by decide),
    ((sample_player_triggers_one_voice example_voice_ops [idle 62, playing 62, playing 62]
      note_off_62).2.1 rfl).1 1 (playing 62) rfl rfl rfl
      (fun j w hj hw => by
        have h0 : j = 0 := by omega
        subst h0
        have hw2 : idle 62 = w := by simpa using hw
        subst hw2
        decide),
    ((sample_player_triggers_one_voice example_voice_ops [playing 60, playing 65]
      note_off_62).2.1 rfl).2 (by decide),
    (sample_player_triggers_one_voice example_voice_ops [playing 60, idle 0]
      other_event).2.2 (by decide) (by decide)⟩

end sushi
